import Mathlib

/-!
# meshage Node: handshake, discovery and state announcements

A shallow embedding of `src/meshage/node.go`.

* Go strings are modelled by Lean strings, a character standing for a byte.
  The code only compares them for equality, splits them at the byte `':'`,
  cuts them to the size of a buffer and sorts them; the code-point order used
  here agrees with Go's byte order.
* A Go `map[string]V` is an association list with pairwise distinct keys
  (`AList`); the order of the entries stands for the (unspecified) order in
  which `range` visits the map.
* Goroutines started with `go`, writes to a connection, log lines of level
  warn or error, sleeps and floods are recorded as a list of `Event`s.
  Debug log lines are not recorded.
* The network is an explicit argument: a record saying what every transport
  call of the function returns.
-/

namespace Meshage

/-! ## Data model -/

/-- A Go `map[string]V`. -/
abbrev GoMap (V : Type) := AList (fun _ : String => V)

/-- The type `mesh` of node.go: `map[string][]string`. -/
abbrev mesh := GoMap (List String)

/-- A Go `error` value, identified by its message. -/
abbrev GoError := String

/-- The error `io.EOF`. -/
def EOF : GoError := "EOF"

/-- A `*client`: the connection it wraps (encoder, decoder and ack channel are
built from the connection) and the name of the peer. -/
structure client where
  conn : Nat
  name : String
deriving DecidableEq, Repr

/-- The two commands a message of this file carries; only `MSA` is built here. -/
inductive Command where
  | MSA
  | other (code : Nat)
deriving DecidableEq, Repr

/-- The `Body interface{}` of a message: a `[]string` or some other payload. -/
inductive Body where
  | strings (l : List String)
  | payload (tag : Nat)
deriving DecidableEq, Repr

/-- The fields of `Message` that `MSA` and `handleMSA` read or write. -/
structure Message where
  Source : String
  CurrentRoute : List String
  ID : Nat
  Command : Command
  Body : Body
deriving DecidableEq, Repr

/-- The state of a `Node` (channels and locks left out). -/
structure Node where
  name : String
  degree : Nat
  network : mesh
  effectiveNetwork : mesh
  routes : GoMap String
  clients : GoMap client
  port : Int
  msaTimeout : Nat
  ttl : Int
  sequences : GoMap Nat

/-- What a function does besides changing the node. -/
inductive Event where
  | encodeString (conn : Nat) (s : String)
  | encodeBool (conn : Nat) (b : Bool)
  | close (conn : Nat)
  | goClientHandler (name : String)
  | goDial (host : String) (solicited : Bool)
  | logWarn
  | logError
  | udpWrite (payload : String)
  | sleep (seconds : Nat)
  | generateEffectiveNetwork
  | flood (m : Message)
deriving DecidableEq, Repr

/-- The length `len(m)` of a Go map. -/
def len {V : Type} (m : GoMap V) : Nat := m.keys.length

/-- The state that `NewNode` builds, node.go lines 57-83 (the five goroutines
it starts are not part of the state). -/
def NewNode (name : String) (degree : Nat) (port : Int) : Node :=
  { name := name, degree := degree, network := ∅, effectiveNetwork := ∅, routes := ∅,
    clients := ∅, port := port, msaTimeout := 10, ttl := 1, sequences := ∅ }

/-! ## dial -/

/-- What the network answers during one call of `dial`. -/
structure DialNet where
  /-- Result of `net.DialTimeout("tcp", addr, ...)`: a connection or an error. -/
  connect : String → Except GoError Nat
  /-- Result of `c.dec.Decode(&remoteHost)`. -/
  recvName : Except GoError String
  /-- Result of `c.dec.Decode(&remoteSolicited)`. -/
  recvSolicited : Except GoError Bool
  /-- Result of `c.enc.Encode(n.name)`: `none` is a nil error. -/
  sendName : Option GoError

/-- Outcome of `dial`: the node afterwards, the returned error (`none` is nil)
and the events in order. -/
structure DialResult where
  node : Node
  err : Option GoError
  events : List Event

/-- The `if solicited { log.Errorln(err) }` of the error paths of `dial`. -/
def logIfSolicited (solicited : Bool) : List Event :=
  if solicited then [Event.logError] else []

/-- The function `dial` of node.go, lines 265-334. -/
def dial (n : Node) (net : DialNet) (host : String) (solicited : Bool) : DialResult :=
  let addr := host ++ ":" ++ toString n.port
  match net.connect addr with
  | .error e => ⟨n, some e, logIfSolicited solicited⟩
  | .ok conn =>
    match net.recvName with
    | .error e => ⟨n, some e, logIfSolicited solicited⟩
    | .ok remoteHost =>
      match net.recvSolicited with
      | .error e => ⟨n, some e, logIfSolicited solicited⟩
      | .ok remoteSolicited =>
        -- are we already connected to this node?
        if n.clients.keys.any (fun k => k == remoteHost) then
          ⟨n, some "already connected", [Event.close conn]⟩
        -- hang up if the remote no longer wants solicited connections
        else if solicited && !remoteSolicited then
          ⟨n, none, [Event.close conn]⟩
        else
          match net.sendName with
          | some e => ⟨n, some e, Event.encodeString conn n.name :: logIfSolicited solicited⟩
          | none =>
            ⟨{ n with clients := n.clients.insert remoteHost ⟨conn, remoteHost⟩ }, none,
              [Event.encodeString conn n.name, Event.goClientHandler remoteHost]⟩

/-- The public `Dial` of node.go, lines 85-88. -/
def Dial (n : Node) (net : DialNet) (addr : String) : DialResult :=
  dial n net addr false

/-! ## newConnection -/

/-- What the network answers during one call of `newConnection`. -/
structure AcceptNet where
  /-- Result of `c.enc.Encode(n.name)`: `none` is a nil error. -/
  sendName : Option GoError
  /-- Result of `c.enc.Encode(solicited)`. -/
  sendSolicited : Option GoError
  /-- Result of `c.dec.Decode(&resp)`. -/
  recvName : Except GoError String

/-- The function `newConnection` of node.go, lines 136-190, for the accepted
connection `conn`.  An `encode` event stands for the call of `Encode`. -/
def newConnection (n : Node) (conn : Nat) (net : AcceptNet) : Node × List Event :=
  -- are we soliciting connections?
  let solicited : Bool := if len n.clients < n.degree then true else false
  match net.sendName with
  | some _ => (n, [Event.encodeString conn n.name, Event.logError])
  | none =>
    match net.sendSolicited with
    | some _ =>
      (n, [Event.encodeString conn n.name, Event.encodeBool conn solicited, Event.logError])
    | none =>
      match net.recvName with
      | .error e =>
        (n, [Event.encodeString conn n.name, Event.encodeBool conn solicited] ++
          (if e != EOF then [Event.logError] else []))
      | .ok resp =>
        ({ n with clients := n.clients.insert resp ⟨conn, resp⟩ },
          [Event.encodeString conn n.name, Event.encodeBool conn solicited,
            Event.goClientHandler resp])

/-! ## broadcastListener -/

/-- Pieces of a list of characters between the occurrences of `sep`. -/
def splitChars (sep : Char) : List Char → List (List Char)
  | [] => [[]]
  | c :: cs =>
    if c = sep then [] :: splitChars sep cs
    else
      match splitChars sep cs with
      | [] => [[c]]
      | h :: t => (c :: h) :: t

/-- Go's `strings.Split(s, sep)` for a separator of one character. -/
def Split (s : String) (sep : Char) : List String :=
  (splitChars sep s.data).map String.mk

/-- The read of node.go lines 204-206: `d := make([]byte, 1024)`,
`read, _, err := ln.ReadFromUDP(d)` and `string(d[:read])`.  The first 1024
bytes of the datagram arrive in the buffer and the rest is dropped; a
character of the string stands for one byte.  A failed read leaves `read = 0`,
which is the read of the empty datagram. -/
def readUDP (datagram : String) : String :=
  String.mk (datagram.data.take 1024)

/-- One turn of the loop of `broadcastListener`, node.go lines 203-224, for the
datagram that arrives and its source address `src`, which the code binds
to `_`. -/
def broadcastListenerStep (n : Node) (datagram : String) (_src : String) : Node × List Event :=
  match Split (readUDP datagram) ':' with
  | [d0, d1] =>
    if d0 != "meshage" then (n, [Event.logWarn])
    else
      let host := d1
      if host == n.name then (n, [])
      else (n, [Event.goDial host true])
  | _ => (n, [Event.logWarn])

/-! ## checkDegree -/

/-- What happens during one turn of the loop of `checkDegree`. -/
structure SolicitNet where
  /-- Whether `net.DialUDP` fails. -/
  dialErr : Bool
  /-- Whether `socket.Write` fails. -/
  writeErr : Bool
  /-- The value of `r.Int31()` behind `r.Intn`; for a power of two `m` below
  `2^31`, `r.Intn(m)` is `r.Int31() & (m - 1)`. -/
  rnd : Nat
  /-- The clients when the loop condition is read next (other goroutines
  register and remove clients meanwhile). -/
  clients : GoMap client
  /-- The degree when the loop condition is read next (`SetDegree`). -/
  degree : Nat

/-- A run of `checkDegree`: the events so far and whether the function has
returned (`false`: the loop is still running when the observation ends). -/
structure Run where
  events : List Event
  returned : Bool
deriving DecidableEq, Repr

/-- The loop of `checkDegree`, node.go lines 238-261, with the current
`backoff`.  The list says what happens in each turn of the loop. -/
def checkDegreeLoop : List SolicitNet → Node → Nat → Run
  | [], n, _ => if len n.clients < n.degree then ⟨[], false⟩ else ⟨[], true⟩
  | s :: rest, n, backoff =>
    if len n.clients < n.degree then
      if s.dialErr then ⟨[Event.logError], true⟩
      else
        let message := "meshage:" ++ n.name
        if s.writeErr then ⟨[Event.udpWrite message, Event.logError], true⟩
        else
          let wait := s.rnd % (1 <<< backoff)
          let backoff1 := if backoff < 7 then backoff + 1 else backoff
          let r := checkDegreeLoop rest { n with clients := s.clients, degree := s.degree } backoff1
          ⟨Event.udpWrite message :: Event.sleep wait :: r.events, r.returned⟩
    else ⟨[], true⟩

/-- The function `checkDegree` of node.go, lines 230-262: `backoff` starts at 1. -/
def checkDegree (n : Node) (env : List SolicitNet) : Run :=
  checkDegreeLoop env n 1

/-! ## MSA -/

/-- The order of `sort.Strings`: lexicographic on the characters. -/
def strLE (a b : String) : Prop := a.data ≤ b.data

instance strLE.decidable : DecidableRel strLE :=
  fun a b => inferInstanceAs (Decidable (a.data ≤ b.data))

/-- Go's `sort.Strings`: the list in ascending order. -/
def sortStrings (l : List String) : List String := l.insertionSort strLE

/-- A map read `m[k]` of a `mesh`: the nil slice when the key is absent. -/
def meshAt (m : mesh) (k : String) : List String := (m.lookup k).getD []

/-- The comparison of `MSA`, node.go lines 350-360: `diff` is set when the
lengths differ or, the lengths being equal, when `clients[i] != v` at some
index `i` of the old list. -/
def listDiffers (old clients : List String) : Bool :=
  if old.length != clients.length then true
  else old.enum.any (fun iv => clients[iv.1]? != some iv.2)

/-- Modelled from the spec: the mutual edges of section 4.5, step 2 (the code of
`generateEffectiveNetwork` is not among the sources).  The neighbours `b` of
`a` with `a` in `network[b]`; a node without such a neighbour gets no entry. -/
def effectiveEdges (network : mesh) : mesh :=
  network.entries.foldr
    (fun e acc =>
      let nbs := e.2.filter (fun b => decide (e.1 ∈ meshAt network b))
      if nbs.isEmpty then acc else acc.insert e.1 nbs)
    ∅

/-- Modelled from the spec: one node `d` of the frontier of the search of
section 4.5, step 3.  Its neighbours, in lexicographic order, that have no
route yet get the first hop of `d` (themselves when `d` is the node itself)
and join the next frontier. -/
def routeStep (eff : mesh) (self : String) (acc : GoMap String × List String) (d : String) :
    GoMap String × List String :=
  (sortStrings (meshAt eff d)).foldl
    (fun a nb =>
      if (a.1.lookup nb).isSome then a
      else (a.1.insert nb (if d = self then nb else (a.1.lookup d).getD nb), a.2 ++ [nb]))
    acc

/-- Modelled from the spec: the breadth-first search of section 4.5, step 3,
level by level, for at most `fuel` levels. -/
def bfsRoutes (eff : mesh) (self : String) : Nat → List String → GoMap String → GoMap String
  | 0, _, routes => routes
  | fuel + 1, frontier, routes =>
    let r := frontier.foldl (routeStep eff self) (routes, [])
    if r.2.isEmpty then r.1 else bfsRoutes eff self fuel r.2 r.1

/-- Modelled from the spec: `generateEffectiveNetwork`, which is not among the
sources, after section 4.5: clear `effectiveNetwork` and `routes`, keep the
edges both ends declare, derive the routes by breadth-first search from the
node itself with `routes[self] = self`. -/
def generateEffectiveNetwork (n : Node) : Node :=
  let eff := effectiveEdges n.network
  { n with
    effectiveNetwork := eff
    routes := bfsRoutes eff n.name (len eff + 1) [n.name]
      ((∅ : GoMap String).insert n.name n.name) }

/-- The function `sequence` of node.go, lines 380-387: `n.sequences[n.name]++`
on a `uint64`, then the new value is returned. -/
def sequence (n : Node) : Node × Nat :=
  let ret := ((n.sequences.lookup n.name).getD 0 + 1) % 2 ^ 64
  ({ n with sequences := n.sequences.insert n.name ret }, ret)

/-- The function `MSA` of node.go, lines 337-378.  The call of `flood`, whose
code is not among the sources, is recorded as the event `flood m`. -/
def MSA (n : Node) : Node × List Event :=
  let clients := sortStrings n.clients.keys
  let diff := listDiffers (meshAt n.network n.name) clients
  let n1 :=
    if diff then generateEffectiveNetwork { n with network := n.network.insert n.name clients }
    else n
  let evs1 := if diff then [Event.generateEffectiveNetwork] else []
  let (n2, id) := sequence n1
  let m : Message :=
    { Source := n.name, CurrentRoute := [n.name], ID := id, Command := Command.MSA,
      Body := Body.strings clients }
  (n2, evs1 ++ [Event.flood m])

/-- The message that `MSA` builds in the state `n` (node.go lines 370-376),
with the value of `sequence()` written out. -/
def announcement (n : Node) : Message :=
  { Source := n.name, CurrentRoute := [n.name],
    ID := ((n.sequences.lookup n.name).getD 0 + 1) % 2 ^ 64,
    Command := Command.MSA, Body := Body.strings (sortStrings n.clients.keys) }

/-- The message of a `flood` event. -/
def floodOf : Event → Option Message
  | Event.flood m => some m
  | _ => none

/-! ## Mesh

`Mesh` is about sharing: whether the lists it returns are the lists of the
node.  For this function the maps of type `mesh` and their `[]string` values
are therefore laid out in a memory of map objects and backing arrays, and a
map or slice is a reference into it. -/

/-- A `[]string` value: the backing array it points into and its window. -/
structure Slice where
  array : Nat
  off : Nat
  len : Nat
deriving DecidableEq, Repr

/-- The backing arrays of the `[]string` values and the map objects of type
`mesh`, both by address. -/
structure Memory where
  arrays : List (List String)
  meshes : List (GoMap Slice)

/-- The backing array at an address. -/
def arrayAt (mem : Memory) (a : Nat) : List String := (mem.arrays[a]?).getD []

/-- The map object at an address. -/
def meshObj (mem : Memory) (r : Nat) : GoMap Slice := (mem.meshes[r]?).getD ∅

/-- The elements of a slice. -/
def readSlice (mem : Memory) (s : Slice) : List String :=
  ((arrayAt mem s.array).drop s.off).take s.len

/-- A slice is empty or lies within an allocated backing array. -/
def validSlice (mem : Memory) (s : Slice) : Bool :=
  s.len == 0 ||
    (decide (s.array < mem.arrays.length) &&
      decide (s.off + s.len ≤ (arrayAt mem s.array).length))

/-- Go's `make([]string, len)`: a new backing array of empty strings. -/
def makeSlice (mem : Memory) (len : Nat) : Memory × Slice :=
  ({ mem with arrays := mem.arrays ++ [List.replicate len ""] }, ⟨mem.arrays.length, 0, len⟩)

/-- Go's `make(mesh)`: a new, empty map object. -/
def makeMesh (mem : Memory) : Memory × Nat :=
  ({ mem with meshes := mem.meshes ++ [∅] }, mem.meshes.length)

/-- Go's `copy(dst, src)`: the first `min(len(dst), len(src))` elements of
`src` overwrite those of `dst`. -/
def copy (mem : Memory) (dst src : Slice) : Memory :=
  let vals := (readSlice mem src).take (min dst.len src.len)
  let arr := arrayAt mem dst.array
  { mem with
    arrays := mem.arrays.set dst.array
      (arr.take dst.off ++ vals ++ arr.drop (dst.off + vals.length)) }

/-- The assignment `s[i] = x` (nothing is written when `i` is out of range,
where Go panics). -/
def setIndex (mem : Memory) (s : Slice) (i : Nat) (x : String) : Memory :=
  if i < s.len then
    { mem with arrays := mem.arrays.set s.array ((arrayAt mem s.array).set (s.off + i) x) }
  else mem

/-- The assignment `m[k] = v` on the map object at `r`. -/
def mapStore (mem : Memory) (r : Nat) (k : String) (v : Slice) : Memory :=
  { mem with meshes := mem.meshes.set r ((meshObj mem r).insert k v) }

/-- The statement `delete(m, k)` on the map object at `r`. -/
def mapDelete (mem : Memory) (r : Nat) (k : String) : Memory :=
  { mem with meshes := mem.meshes.set r ((meshObj mem r).erase k) }

/-- The fields of `Node` that `meshLock` guards, as laid out in memory. -/
structure MeshNode where
  mem : Memory
  network : Nat
  effectiveNetwork : Nat
  routes : GoMap String

/-- What a map of type `mesh` holds under the key `k`. -/
def meshValue (mem : Memory) (r : Nat) (k : String) : Option (List String) :=
  ((meshObj mem r).lookup k).map (readSlice mem)

/-- The body of the loop of `Mesh`, node.go lines 109-111, for the entry `e`
of `effectiveNetwork`; `ret` is the map being filled. -/
def meshCopyEntry (ret : Nat) (mem : Memory) (e : (_ : String) × Slice) : Memory :=
  let (m1, ns) := makeSlice mem e.2.len
  let m2 := copy m1 ns e.2
  mapStore m2 ret e.1 ns

/-- The function `Mesh` of node.go, lines 103-114: the node afterwards and the
returned map. -/
def Mesh (n : MeshNode) : MeshNode × Nat :=
  let (mem0, ret) := makeMesh n.mem
  let mem1 := (meshObj n.mem n.effectiveNetwork).entries.foldl (meshCopyEntry ret) mem0
  ({ n with mem := mem1 }, ret)

/-- The loop invariant used to verify `Mesh`, for the memory `base` before the
call and the entries `done` copied so far: the arrays of `base` are still
there, one map object `b` was added, its keys are those of `done`, and each of
its slices lies in a new array and holds the elements of the entry it copies. -/
def MeshInv (base mem : Memory) (done : List ((_ : String) × Slice)) : Prop :=
  (∃ X, mem.arrays = base.arrays ++ X) ∧
  ∃ b : GoMap Slice, mem.meshes = base.meshes ++ [b] ∧
    (∀ k, k ∈ b ↔ ∃ v, (⟨k, v⟩ : (_ : String) × Slice) ∈ done) ∧
    ∀ k sl, b.lookup k = some sl →
      base.arrays.length ≤ sl.array ∧ sl.array < mem.arrays.length ∧
      ∃ v, (⟨k, v⟩ : (_ : String) × Slice) ∈ done ∧ readSlice mem sl = readSlice base v

/-! ## handleMSA -/

/-- The end of `handleMSA`, node.go lines 406-414: `routes` is replaced by an
empty map, `network[m.Source]` by the body, and the effective network is
generated again. -/
def handleMSAUpdate (n : Node) (source : String) (body : List String) : Node × List Event :=
  (generateEffectiveNetwork { n with routes := ∅, network := n.network.insert source body },
    [Event.generateEffectiveNetwork])

/-- The function `handleMSA` of node.go, lines 389-415.  The result is `none`
when the type assertion `m.Body.([]string)` panics. -/
def handleMSA (n : Node) (m : Message) : Option (Node × List Event) :=
  match m.Body with
  | Body.payload _ => none
  | Body.strings body =>
    if (meshAt n.network m.Source).length == body.length then
      let diff := (meshAt n.network m.Source).enum.any (fun iv => body[iv.1]? != some iv.2)
      if !diff then some (n, [])
      else some (handleMSAUpdate n m.Source body)
    else some (handleMSAUpdate n m.Source body)

/-! ## The handshake of two nodes -/

/-- The first string written in a trace, if any. -/
def sentString : List Event → Option String
  | [] => none
  | Event.encodeString _ s :: _ => some s
  | _ :: rest => sentString rest

/-- The first boolean written in a trace, if any. -/
def sentBool : List Event → Option Bool
  | [] => none
  | Event.encodeBool _ b :: _ => some b
  | _ :: rest => sentBool rest

/-- What the reader of a connection gets: the value the peer wrote, or
`io.EOF` when the peer wrote nothing and hung up. -/
def received {V : Type} (sent : Option V) : Except GoError V :=
  match sent with
  | some v => .ok v
  | none => .error EOF

/-- What `B` meets when it dials `A` over a connection without transport
error: the connect succeeds, the two reads deliver what `A` writes before its
first read, and the write succeeds. -/
def dialSide (A : Node) (connA connB : Nat) : DialNet :=
  let written := (newConnection A connA ⟨none, none, .error EOF⟩).2
  { connect := fun _ => .ok connB
    recvName := received (sentString written)
    recvSolicited := received (sentBool written)
    sendName := none }

/-- What `A` meets on that connection: both writes succeed and the read
delivers the name `B` wrote, or `io.EOF` when `B` hung up without writing. -/
def acceptSide (dialEvents : List Event) : AcceptNet :=
  { sendName := none, sendSolicited := none, recvName := received (sentString dialEvents) }

/-- One handshake without transport error: `B` runs `dial` towards `A` (the
connection is `connB` on its side), `A` runs `newConnection` on the same
connection (`connA` on its side).  The result is the outcome on each side. -/
def handshake (A B : Node) (connA connB : Nat) (host : String) (solicited : Bool) :
    (Node × List Event) × DialResult :=
  let rB := dial B (dialSide A connA connB) host solicited
  (newConnection A connA (acceptSide rB.events), rB)

/-- The seconds slept in a trace, in order. -/
def sleepOf : Event → Option Nat
  | Event.sleep w => some w
  | _ => none

/-! ## Example states -/

/-- A node `a` of degree 1 whose only client is `b`. -/
def nodeA : Node :=
  { NewNode "a" 1 9000 with clients := (∅ : GoMap client).insert "b" ⟨1, "b"⟩ }

/-- A network on which every transport call succeeds; the remote announces
`name` and `flag`, the connection gets the number 2. -/
def okNet (name : String) (flag : Bool) : DialNet :=
  { connect := fun _ => .ok 2, recvName := .ok name, recvSolicited := .ok flag,
    sendName := none }

/-- A node `b` of degree 1 that already has a client named `a` on connection 1. -/
def nodeB : Node :=
  { NewNode "b" 1 9000 with clients := (∅ : GoMap client).insert "a" ⟨1, "a"⟩ }

/-- An accept-side network on which every call succeeds; the dialler announces `name`. -/
def okAccept (name : String) : AcceptNet :=
  { sendName := none, sendSolicited := none, recvName := .ok name }

/-- A name of 1016 bytes. -/
def longName : String := String.mk (List.replicate 1016 'x')

/-- A datagram of 1028 bytes with two colons: `meshage:`, the long name, and
`:zzz` beyond the 1024th byte. -/
def longDatagram : String := "meshage:" ++ longName ++ ":zzz"

/-- A turn of `checkDegree` without transport error: the draw is `rnd`, and
afterwards the node has the clients `cs` and the degree 1. -/
def okTurn (rnd : Nat) (cs : GoMap client) : SolicitNet :=
  { dialErr := false, writeErr := false, rnd := rnd, clients := cs, degree := 1 }

/-- A node `m` with the clients `zed`, `bob` and `amy`, whose `network[m]` is
still the list of an earlier moment. -/
def nodeM : Node :=
  { NewNode "m" 3 9000 with
    clients := (((∅ : GoMap client).insert "amy" ⟨1, "amy"⟩).insert "bob" ⟨2, "bob"⟩).insert
      "zed" ⟨3, "zed"⟩
    network := (∅ : mesh).insert "m" ["amy"]
    sequences := (∅ : GoMap Nat).insert "m" 41 }

/-- A node in memory: `network` is the map object 0 and `effectiveNetwork` the
map object 1, with `a -> [b, c]` and `b -> [a]`; the list of `b` is a window
into a longer array. -/
def meshNode1 : MeshNode :=
  { mem :=
      { arrays := [["b", "c"], ["x", "a", "y"]]
        meshes := [∅, ((∅ : GoMap Slice).insert "a" ⟨0, 0, 2⟩).insert "b" ⟨1, 1, 1⟩] }
    network := 0
    effectiveNetwork := 1
    routes := ∅ }

end Meshage

/-!
# minimega web server: the list of VMs

A shallow embedding of `webVMsJSON` of `src/minimega/web.go`.  The interface
`VM`, the function `GlobalVMs` and the constants `VM_QUIT` and `VM_ERROR` are
declared outside the source file: a VM is the record of what its getters
return, the VMs come as the list in which `range vms` visits them, and the two
constants are arguments.
-/

namespace Minimega

open Meshage

/-- What `webVMsJSON` reads of a VM: the state bits, the host, the ID, and in
`info` the remaining values that go into `vmMap` (name, type, configuration,
tags).  The `vmMap` built from a VM is identified with this record. -/
structure VM (Info : Type) where
  state : Nat
  host : String
  id : Int
  info : Info
deriving DecidableEq, Repr

/-- The key of web.go line 381: `vm.GetHost()+" "+strconv.Itoa(vm.GetID())`. -/
def vmKey {Info : Type} (vm : VM Info) : String := vm.host ++ " " ++ toString vm.id

/-- The test of web.go lines 324-328: `vm.GetState()&stateMask != 0` with
`stateMask := VM_QUIT | VM_ERROR`; such a VM is skipped. -/
def skipped {Info : Type} (VM_QUIT VM_ERROR : Nat) (vm : VM Info) : Bool :=
  vm.state &&& (VM_QUIT ||| VM_ERROR) != 0

/-- The map `infovms` after the loop of web.go lines 323-382 over the VMs in
the order `vms`. -/
def infovms {Info : Type} (VM_QUIT VM_ERROR : Nat) (vms : List (VM Info)) : GoMap (VM Info) :=
  vms.foldl (fun m vm => if skipped VM_QUIT VM_ERROR vm then m else m.insert (vmKey vm) vm) ∅

/-- The function `webVMsJSON` of web.go, lines 317-409: the slice `infoslice`
that is handed to `json.Marshal` and written out.  Entry `i` is
`infovms[keys[i]]` for the sorted keys; `none` is the nil map of an absent key. -/
def webVMsJSON {Info : Type} (VM_QUIT VM_ERROR : Nat) (vms : List (VM Info)) :
    List (Option (VM Info)) :=
  let m := infovms VM_QUIT VM_ERROR vms
  let keys := sortStrings m.keys
  keys.map (fun k => m.lookup k)

/-- Five VMs on two hosts; the state bits are building 1, running 2, paused 4,
quit 8 and error 16. -/
def someVMs : List (VM String) :=
  [⟨2, "h", 2, "web"⟩, ⟨8, "h", 3, "gone"⟩, ⟨2, "h", 10, "db"⟩, ⟨4, "g", 7, "dns"⟩,
    ⟨18, "g", 8, "broken"⟩]

end Minimega

namespace Meshage

/-! # Theorems -/

/-! ## Lemmas on maps -/

theorem any_key_eq_iff {V : Type} (m : GoMap V) (k : String) :
    (m.keys.any (fun x => x == k)) = true ↔ k ∈ m := by
  rw [AList.mem_keys]
  simp [List.any_eq_true]

theorem keys_insert_fresh {V : Type} (m : GoMap V) (k : String) (v : V) (h : k ∉ m) :
    (m.insert k v).keys = k :: m.keys := by
  rw [AList.keys_insert, List.erase_of_not_mem]
  rwa [← AList.mem_keys]

/-! ## C1 -/

/-- C1: when connect and both handshake reads succeed and the announced name
is already a key of `clients`, `dial` (solicited or not, hence also the public
`Dial`) returns a non-nil error and leaves the node, in particular `clients`,
as it was. -/
theorem dial_duplicate_rejected (n : Node) (net : DialNet) (host : String) (solicited : Bool)
    (conn : Nat) (remoteHost : String) (remoteSolicited : Bool)
    (hconn : net.connect (host ++ ":" ++ toString n.port) = .ok conn)
    (hname : net.recvName = .ok remoteHost)
    (hsol : net.recvSolicited = .ok remoteSolicited)
    (hdup : remoteHost ∈ n.clients) :
    (dial n net host solicited).err ≠ none ∧
    (dial n net host solicited).node.clients = n.clients ∧
    (dial n net host solicited).node = n ∧
    (Dial n net host).err ≠ none ∧
    (Dial n net host).node.clients = n.clients := by
  have hany := (any_key_eq_iff n.clients remoteHost).2 hdup
  simp [Dial, dial, hconn, hname, hsol, hany]

theorem dial_duplicate_rejected_witness :
    "b" ∈ nodeA.clients ∧
    (dial nodeA (okNet "b" true) "10.0.0.2" true).err ≠ none ∧
    (dial nodeA (okNet "b" true) "10.0.0.2" true).node.clients = nodeA.clients ∧
    (dial nodeA (okNet "b" true) "10.0.0.2" true).node = nodeA ∧
    (Dial nodeA (okNet "b" true) "10.0.0.2").err ≠ none ∧
    (Dial nodeA (okNet "b" true) "10.0.0.2").node.clients = nodeA.clients :=
  ⟨AList.mem_keys.2 (by decide),
    dial_duplicate_rejected nodeA (okNet "b" true) "10.0.0.2" true 2 "b" true rfl rfl rfl
      (AList.mem_keys.2 (by decide))⟩

/-! ## C2 -/

/-- C2: when every transport step of a dial succeeds and the announced name is
not yet a key of `clients`, the peer is registered (nil is returned, `clients`
gains the key of the announced name and keeps every other entry, the own name
is sent and the client handler started) if and only if it is not the case that
this side dialled as solicited and the remote sent `solicited = false`; in that
excluded case the connection is closed, nothing is sent, nil is returned and
the node is unchanged.  The public `Dial` registers the peer whatever flag the
remote sent. -/
theorem dial_registers_iff (n : Node) (net : DialNet) (host : String) (solicited : Bool)
    (conn : Nat) (remoteHost : String) (remoteSolicited : Bool)
    (hconn : net.connect (host ++ ":" ++ toString n.port) = .ok conn)
    (hname : net.recvName = .ok remoteHost)
    (hsol : net.recvSolicited = .ok remoteSolicited)
    (hsend : net.sendName = none)
    (hnew : remoteHost ∉ n.clients) :
    (remoteHost ∈ (dial n net host solicited).node.clients ↔
      ¬ (solicited = true ∧ remoteSolicited = false)) ∧
    (¬ (solicited = true ∧ remoteSolicited = false) →
      (dial n net host solicited).err = none ∧
      (dial n net host solicited).node =
        { n with clients := n.clients.insert remoteHost ⟨conn, remoteHost⟩ } ∧
      (dial n net host solicited).node.clients.keys = remoteHost :: n.clients.keys ∧
      (dial n net host solicited).node.clients.lookup remoteHost = some ⟨conn, remoteHost⟩ ∧
      (∀ k, k ≠ remoteHost →
        (dial n net host solicited).node.clients.lookup k = n.clients.lookup k) ∧
      (dial n net host solicited).events =
        [Event.encodeString conn n.name, Event.goClientHandler remoteHost]) ∧
    (solicited = true ∧ remoteSolicited = false →
      (dial n net host solicited).err = none ∧
      (dial n net host solicited).node = n ∧
      (dial n net host solicited).events = [Event.close conn]) ∧
    ((Dial n net host).err = none ∧
      (Dial n net host).node.clients.keys = remoteHost :: n.clients.keys ∧
      (Dial n net host).node.clients.lookup remoteHost = some ⟨conn, remoteHost⟩ ∧
      ∀ k, k ≠ remoteHost → (Dial n net host).node.clients.lookup k = n.clients.lookup k) := by
  have hany : (n.clients.keys.any (fun k => k == remoteHost)) = false := by
    rw [← Bool.not_eq_true, any_key_eq_iff]
    exact hnew
  have hkeys := keys_insert_fresh n.clients remoteHost ⟨conn, remoteHost⟩ hnew
  have hne : ∀ k, k ≠ remoteHost →
      (n.clients.insert remoteHost ⟨conn, remoteHost⟩).lookup k = n.clients.lookup k :=
    fun k hk => AList.lookup_insert_ne hk
  have hreg : ∀ s : Bool, ¬ (s = true ∧ remoteSolicited = false) →
      dial n net host s = ⟨{ n with clients := n.clients.insert remoteHost ⟨conn, remoteHost⟩ },
        none, [Event.encodeString conn n.name, Event.goClientHandler remoteHost]⟩ := by
    intro s hs
    have hb : (s && !remoteSolicited) = false := by
      cases s <;> cases remoteSolicited <;> simp_all
    simp [dial, hconn, hname, hsol, hsend, hany, hb]
  have hhang : solicited = true ∧ remoteSolicited = false →
      dial n net host solicited = ⟨n, none, [Event.close conn]⟩ := by
    rintro ⟨h1, h2⟩
    simp [dial, hconn, hname, hsol, hany, h1, h2]
  refine ⟨?_, ?_, ?_, ?_⟩
  · by_cases hs : solicited = true ∧ remoteSolicited = false
    · rw [hhang hs]
      simp [hnew, hs]
    · rw [hreg solicited hs]
      simp [hs]
  · intro hs
    rw [hreg solicited hs]
    exact ⟨rfl, rfl, hkeys, AList.lookup_insert _, hne, rfl⟩
  · intro hs
    rw [hhang hs]
    exact ⟨rfl, rfl, rfl⟩
  · have h := hreg false (by simp)
    unfold Dial
    rw [h]
    exact ⟨rfl, hkeys, AList.lookup_insert _, hne⟩

theorem dial_registers_iff_witness :
    "c" ∉ nodeA.clients ∧
    ((dial nodeA (okNet "c" false) "10.0.0.3" true).node = nodeA) ∧
    ((Dial nodeA (okNet "c" false) "10.0.0.3").node.clients.keys = ["c", "b"]) :=
  have hnew : "c" ∉ nodeA.clients := fun h => absurd (AList.mem_keys.1 h) (by decide)
  have h := dial_registers_iff nodeA (okNet "c" false) "10.0.0.3" true 2 "c" false
    rfl rfl rfl rfl hnew
  ⟨hnew, (h.2.2.1 ⟨rfl, rfl⟩).2.1, h.2.2.2.2.1⟩

/-! ## C3 -/

/-- C3: in every state the first thing `newConnection` writes is the own name;
every solicitation flag it writes is true if and only if the number of clients
is strictly below `degree`; when the name went out, the flag is the second
write; and with `degree = 0` the flag is false. -/
theorem newConnection_sends_name_then_flag (n : Node) (conn : Nat) (net : AcceptNet) :
    (newConnection n conn net).2.head? = some (Event.encodeString conn n.name) ∧
    (∀ c b, Event.encodeBool c b ∈ (newConnection n conn net).2 →
      c = conn ∧ (b = true ↔ len n.clients < n.degree)) ∧
    (net.sendName = none →
      (newConnection n conn net).2.get? 1 =
        some (Event.encodeBool conn (decide (len n.clients < n.degree)))) ∧
    (n.degree = 0 → ∀ c b, Event.encodeBool c b ∈ (newConnection n conn net).2 → b = false) := by
  have key : ∀ c b, Event.encodeBool c b ∈ (newConnection n conn net).2 →
      c = conn ∧ (b = true ↔ len n.clients < n.degree) := by
    intro c b hmem
    unfold newConnection at hmem
    cases hs : net.sendName with
    | some e => simp [hs] at hmem
    | none =>
      cases hf : net.sendSolicited with
      | some e =>
        simp [hs, hf] at hmem
        obtain ⟨rfl, rfl⟩ := hmem
        simp
      | none =>
        cases hr : net.recvName with
        | error e =>
          by_cases he : e = EOF
          · simp [hs, hf, hr, he] at hmem
            obtain ⟨rfl, rfl⟩ := hmem
            simp
          · simp [hs, hf, hr, he] at hmem
            obtain ⟨rfl, rfl⟩ := hmem
            simp
        | ok resp =>
          simp [hs, hf, hr] at hmem
          obtain ⟨rfl, rfl⟩ := hmem
          simp
  refine ⟨?_, key, ?_, ?_⟩
  · unfold newConnection
    cases net.sendName <;> cases net.sendSolicited <;> cases net.recvName <;> simp
  · intro hs
    unfold newConnection
    cases net.sendSolicited <;> cases net.recvName <;> simp [hs]
  · intro hd c b hmem
    have h := (key c b hmem).2
    rw [hd] at h
    cases b
    · rfl
    · exact absurd (h.1 rfl) (Nat.not_lt_zero _)

theorem newConnection_sends_name_then_flag_witness :
    (newConnection nodeB 2 (okAccept "c")).2.get? 1 = some (Event.encodeBool 2 false) ∧
    (newConnection (NewNode "b" 0 9000) 2 (okAccept "c")).2 =
      [Event.encodeString 2 "b", Event.encodeBool 2 false, Event.goClientHandler "c"] :=
  ⟨(newConnection_sends_name_then_flag nodeB 2 (okAccept "c")).2.2.1 rfl, by decide⟩

/-! ## C4 -/

/-- C4, the code at a duplicate: node `b` holds a client `a` on connection 1;
a second connection (number 2) whose dialler announces `a` again is registered
in place of the first one: `clients["a"]` is the new connection, the old entry
is gone, the connection is not closed and a client handler is started. -/
theorem newConnection_duplicate_overwrites :
    nodeB.clients.lookup "a" = some ⟨1, "a"⟩ ∧
    (newConnection nodeB 2 (okAccept "a")).1.clients.lookup "a" = some ⟨2, "a"⟩ ∧
    (newConnection nodeB 2 (okAccept "a")).1.clients.keys = ["a"] ∧
    (newConnection nodeB 2 (okAccept "a")).2 =
      [Event.encodeString 2 "b", Event.encodeBool 2 false, Event.goClientHandler "a"] := by
  decide

/-! ## Lemmas on Split -/

theorem splitChars_ne_nil (sep : Char) (l : List Char) : splitChars sep l ≠ [] := by
  cases l with
  | nil => simp [splitChars]
  | cons c cs =>
    unfold splitChars
    split_ifs
    · simp
    · split <;> simp

theorem splitChars_of_not_mem (sep : Char) (l : List Char) (h : sep ∉ l) :
    splitChars sep l = [l] := by
  induction l with
  | nil => rfl
  | cons c cs ih =>
    have hc : c ≠ sep := fun e => h (by simp [e])
    have hcs : sep ∉ cs := fun e => h (by simp [e])
    simp [splitChars, hc, ih hcs]

theorem splitChars_append (sep : Char) (a b : List Char) (h : sep ∉ a) :
    splitChars sep (a ++ sep :: b) = a :: splitChars sep b := by
  induction a with
  | nil => simp [splitChars]
  | cons c cs ih =>
    have hc : c ≠ sep := fun e => h (by simp [e])
    have hcs : sep ∉ cs := fun e => h (by simp [e])
    simp [splitChars, hc, ih hcs]

/-- Splitting yields exactly two pieces `a`, `b` if and only if the input is
`a`, the separator, `b` and neither piece holds the separator. -/
theorem splitChars_eq_pair (sep : Char) (l a b : List Char) :
    splitChars sep l = [a, b] ↔ l = a ++ sep :: b ∧ sep ∉ a ∧ sep ∉ b := by
  constructor
  · intro h
    by_cases hl : sep ∈ l
    · obtain ⟨x, y, rfl, hx⟩ := List.eq_append_cons_of_mem hl
      rw [splitChars_append sep x y hx] at h
      obtain ⟨rfl, hy⟩ := List.cons.inj h
      by_cases hy2 : sep ∈ y
      · obtain ⟨u, v, rfl, hu⟩ := List.eq_append_cons_of_mem hy2
        rw [splitChars_append sep u v hu] at hy
        have := splitChars_ne_nil sep v
        simp_all
      · rw [splitChars_of_not_mem sep y hy2] at hy
        obtain ⟨rfl, -⟩ := List.cons.inj hy
        exact ⟨rfl, hx, hy2⟩
    · rw [splitChars_of_not_mem sep l hl] at h
      simp at h
  · rintro ⟨rfl, ha, hb⟩
    rw [splitChars_append sep a b ha, splitChars_of_not_mem sep b hb]

theorem Split_eq_pair (p d0 d1 : String) :
    Split p ':' = [d0, d1] ↔ p = d0 ++ ":" ++ d1 ∧ ':' ∉ d0.data ∧ ':' ∉ d1.data := by
  have hp : p = d0 ++ ":" ++ d1 ↔ p.data = d0.data ++ ':' :: d1.data := by
    rw [String.ext_iff]
    simp
  rw [hp, ← splitChars_eq_pair]
  unfold Split
  constructor
  · intro h
    have h2 := congrArg (List.map String.data) h
    simpa [Function.comp_def] using h2
  · intro h
    rw [h]
    rfl

theorem readUDP_of_short (p : String) (h : p.length ≤ 1024) : readUDP p = p := by
  apply String.ext
  simp only [readUDP]
  exact List.take_of_length_le h

/-- The listener starts a dial exactly when what it read, the first 1024 bytes
of the datagram, is `meshage:` followed by a name without colon other than the
own name, and then it is one solicited dial to that name. -/
theorem broadcastListenerStep_cases (n : Node) (p src : String) :
    ((∃ name, readUDP p = "meshage:" ++ name ∧ ':' ∉ name.data ∧ name ≠ n.name ∧
        broadcastListenerStep n p src = (n, [Event.goDial name true])) ∨
      ((¬ ∃ name, readUDP p = "meshage:" ++ name ∧ ':' ∉ name.data ∧ name ≠ n.name) ∧
        (broadcastListenerStep n p src = (n, [Event.logWarn]) ∨
          broadcastListenerStep n p src = (n, [])))) := by
  have hform : ∀ name : String, readUDP p = "meshage:" ++ name ∧ ':' ∉ name.data →
      Split (readUDP p) ':' = ["meshage", name] := by
    rintro name ⟨h1, h2⟩
    rw [Split_eq_pair]
    refine ⟨?_, by decide, h2⟩
    rw [h1, String.ext_iff]
    simp
  by_cases hex : ∃ name, readUDP p = "meshage:" ++ name ∧ ':' ∉ name.data ∧ name ≠ n.name
  · obtain ⟨name, h1, h2, h3⟩ := hex
    refine Or.inl ⟨name, h1, h2, h3, ?_⟩
    simp [broadcastListenerStep, hform name ⟨h1, h2⟩, h3]
  · refine Or.inr ⟨hex, ?_⟩
    unfold broadcastListenerStep
    split
    · rename_i d0 d1 hsplit
      by_cases h0 : d0 = "meshage"
      · subst h0
        obtain ⟨h1, -, h2⟩ := (Split_eq_pair (readUDP p) "meshage" d1).1 hsplit
        have h1b : readUDP p = "meshage:" ++ d1 := by
          rw [h1, String.ext_iff]
          simp
        have hself : d1 = n.name := by
          by_contra hne
          exact hex ⟨d1, h1b, h2, hne⟩
        simp [hself]
      · simp [h0]
    · exact Or.inl rfl

/-- What the listener does on a datagram whose first 1024 bytes are `meshage:`
and a name without colon other than the own name. -/
theorem broadcastListenerStep_of_read (n : Node) (p name src : String)
    (hread : readUDP p = "meshage:" ++ name) (hcolon : ':' ∉ name.data)
    (hother : name ≠ n.name) :
    broadcastListenerStep n p src = (n, [Event.goDial name true]) := by
  rcases broadcastListenerStep_cases n p src with h | h
  · obtain ⟨name2, h1, -, -, h4⟩ := h
    have : name2 = name := by
      rw [hread, String.ext_iff] at h1
      rw [String.ext_iff]
      simpa using h1.symm
    rw [h4, this]
  · exact absurd ⟨name, hread, hcolon, hother⟩ h.1

/-! ## C5 -/

/-- C5, as stated, fails: node `a` reads the datagram `meshage:b` sent from
the address 10.0.0.5; the one dial it starts goes to the host `b` named in
the payload, and no dial goes to the source address. -/
theorem broadcastListener_dials_payload_name :
    (broadcastListenerStep (NewNode "a" 1 9000) "meshage:b" "10.0.0.5").2 =
      [Event.goDial "b" true] ∧
    Event.goDial "10.0.0.5" true ∉
      (broadcastListenerStep (NewNode "a" 1 9000) "meshage:b" "10.0.0.5").2 := by
  decide

/-- C5, amended: for every well-formed solicitation datagram of at most 1024
bytes that the listener accepts (`meshage:` followed by a name without colon
that is not the own name) and every source address, the listener starts
exactly one dial, to the host named in the payload, as a solicited dial; the
source address has no influence.  Of a longer datagram the listener reads the
first 1024 bytes only, and when those are of that form it dials the name they
carry, again as a solicited dial. -/
theorem broadcastListener_dials_name_solicited (n : Node) (name src : String)
    (hlen : ("meshage:" ++ name).length ≤ 1024)
    (hcolon : ':' ∉ name.data) (hother : name ≠ n.name) :
    broadcastListenerStep n ("meshage:" ++ name) src = (n, [Event.goDial name true]) ∧
    (∀ src2, broadcastListenerStep n ("meshage:" ++ name) src2 =
      broadcastListenerStep n ("meshage:" ++ name) src) ∧
    (∀ p src2, readUDP p = "meshage:" ++ name →
      broadcastListenerStep n p src2 = (n, [Event.goDial name true])) := by
  have hread : readUDP ("meshage:" ++ name) = "meshage:" ++ name := readUDP_of_short _ hlen
  have key : ∀ s, broadcastListenerStep n ("meshage:" ++ name) s =
      (n, [Event.goDial name true]) :=
    fun s => broadcastListenerStep_of_read n _ name s hread hcolon hother
  exact ⟨key src, fun src2 => (key src2).trans (key src).symm,
    fun p src2 hp => broadcastListenerStep_of_read n p name src2 hp hcolon hother⟩

theorem broadcastListener_dials_name_solicited_witness :
    ("meshage:" ++ "node7").length ≤ 1024 ∧ ':' ∉ "node7".data ∧ "node7" ≠ nodeA.name ∧
    broadcastListenerStep nodeA ("meshage:" ++ "node7") "192.168.1.7" =
      (nodeA, [Event.goDial "node7" true]) :=
  ⟨by decide, by decide, by decide,
    (broadcastListener_dials_name_solicited nodeA "node7" "192.168.1.7"
      (by decide) (by decide) (by decide)).1⟩

/-! ## C6 -/

/-- C6, as stated, fails: the datagram of 1028 bytes made of `meshage:`, a name
of 1016 bytes and `:zzz` is not `meshage:` followed by a name without colon;
node `a` reads its first 1024 bytes and starts a dial to the name of 1016
bytes. -/
theorem broadcastListener_long_datagram_dialled :
    longDatagram.length = 1028 ∧
    (¬ ∃ name, longDatagram = "meshage:" ++ name ∧ ':' ∉ name.data) ∧
    (broadcastListenerStep (NewNode "a" 1 9000) longDatagram "10.0.0.5").2 =
      [Event.goDial longName true] := by
  have hlenName : longName.data.length = 1016 := List.length_replicate 1016 'x'
  have h8 : ("meshage:".data ++ longName.data).length = 1024 := by
    rw [List.length_append, hlenName]
    rfl
  have hdata : longDatagram.data = ("meshage:".data ++ longName.data) ++ ":zzz".data := by
    simp only [longDatagram, String.data_append]
  have hread : readUDP longDatagram = "meshage:" ++ longName := by
    apply String.ext
    simp only [readUDP, String.data_append]
    rw [hdata]
    exact List.take_left' h8
  have hcolon : ':' ∉ longName.data := by
    intro h
    have hx : ':' = 'x' := List.eq_of_mem_replicate h
    exact absurd hx (by decide)
  have hother : longName ≠ (NewNode "a" 1 9000).name := by
    intro h
    have hl := congrArg (fun s => s.data.length) h
    simp only [hlenName] at hl
    exact absurd hl (by decide)
  refine ⟨?_, ?_, ?_⟩
  · show longDatagram.data.length = 1028
    rw [hdata, List.length_append, h8]
    rfl
  · rintro ⟨name, h, hc⟩
    have hname : name.data = longName.data ++ ":zzz".data := by
      have h2 := congrArg String.data h
      rw [hdata] at h2
      simp only [String.data_append, List.append_assoc] at h2
      exact (List.append_cancel_left h2).symm
    apply hc
    rw [hname]
    exact List.mem_append_right _ (by decide)
  · rw [broadcastListenerStep_of_read _ longDatagram longName "10.0.0.5" hread hcolon hother]

/-- C6, amended: for every datagram the listener starts a dial if and only if
its first 1024 bytes, which are all of it when it has at most 1024 bytes, are
`meshage:` followed by a name that holds no colon and is not the own name; in
every case the node is unchanged, and in every other case the turn does
nothing but possibly log a warning.  So for a payload of at most 1024 bytes the
listener starts a dial if and only if the payload itself is of that form. -/
theorem broadcastListener_dispatch_iff_read (n : Node) (p src : String) :
    ((∃ host flag, Event.goDial host flag ∈ (broadcastListenerStep n p src).2) ↔
      ∃ name, readUDP p = "meshage:" ++ name ∧ ':' ∉ name.data ∧ name ≠ n.name) ∧
    (broadcastListenerStep n p src).1 = n ∧
    ((¬ ∃ name, readUDP p = "meshage:" ++ name ∧ ':' ∉ name.data ∧ name ≠ n.name) →
      ∀ e ∈ (broadcastListenerStep n p src).2, e = Event.logWarn) ∧
    readUDP p = String.mk (p.data.take 1024) ∧
    (p.length ≤ 1024 → readUDP p = p) ∧
    (p.length ≤ 1024 →
      ((∃ host flag, Event.goDial host flag ∈ (broadcastListenerStep n p src).2) ↔
        ∃ name, p = "meshage:" ++ name ∧ ':' ∉ name.data ∧ name ≠ n.name)) := by
  have hiff : (∃ host flag, Event.goDial host flag ∈ (broadcastListenerStep n p src).2) ↔
      ∃ name, readUDP p = "meshage:" ++ name ∧ ':' ∉ name.data ∧ name ≠ n.name := by
    rcases broadcastListenerStep_cases n p src with h | h
    · obtain ⟨name, h1, h2, h3, h4⟩ := h
      constructor
      · intro _
        exact ⟨name, h1, h2, h3⟩
      · intro _
        exact ⟨name, true, by simp [h4]⟩
    · obtain ⟨hno, h4 | h4⟩ := h
      · constructor
        · rintro ⟨host, flag, hmem⟩
          simp [h4] at hmem
        · intro hex
          exact absurd hex hno
      · constructor
        · rintro ⟨host, flag, hmem⟩
          simp [h4] at hmem
        · intro hex
          exact absurd hex hno
  refine ⟨hiff, ?_, ?_, rfl, readUDP_of_short p, ?_⟩
  · rcases broadcastListenerStep_cases n p src with h | h
    · obtain ⟨name, -, -, -, h4⟩ := h
      rw [h4]
    · obtain ⟨-, h4 | h4⟩ := h <;> rw [h4]
  · intro hno e he
    rcases broadcastListenerStep_cases n p src with h | h
    · obtain ⟨name, h1, h2, h3, -⟩ := h
      exact absurd ⟨name, h1, h2, h3⟩ hno
    · obtain ⟨-, h4 | h4⟩ := h
      · simpa [h4] using he
      · simp [h4] at he
  · intro hlen
    rw [hiff, readUDP_of_short p hlen]

theorem broadcastListener_dispatch_iff_read_witness :
    (broadcastListenerStep nodeA "meshage:a" "10.0.0.1").2 = [] ∧
    (broadcastListenerStep nodeA "meshage:b:c" "10.0.0.1").2 = [Event.logWarn] ∧
    (broadcastListenerStep nodeA "mesh:b" "10.0.0.1").2 = [Event.logWarn] ∧
    (broadcastListenerStep nodeA "" "10.0.0.1").2 = [Event.logWarn] ∧
    (broadcastListenerStep nodeA "meshage:" "10.0.0.1").2 = [Event.goDial "" true] ∧
    (∃ host flag, Event.goDial host flag ∈ (broadcastListenerStep nodeA "meshage:c" "10.0.0.1").2) :=
  ⟨by decide, by decide, by decide, by decide, by decide,
    ((broadcastListener_dispatch_iff_read nodeA "meshage:c" "10.0.0.1").2.2.2.2.2
      (by decide)).2 ⟨"c", by decide, by decide, by decide⟩⟩

/-! ## C7 -/

theorem checkDegreeLoop_payload (env : List SolicitNet) :
    ∀ (n : Node) (backoff : Nat) (p : String),
      Event.udpWrite p ∈ (checkDegreeLoop env n backoff).events → p = "meshage:" ++ n.name := by
  induction env with
  | nil =>
    intro n backoff p h
    unfold checkDegreeLoop at h
    split_ifs at h <;> simp at h
  | cons s rest ih =>
    intro n backoff p h
    unfold checkDegreeLoop at h
    by_cases hlt : len n.clients < n.degree
    · by_cases hd : s.dialErr = true
      · simp [hlt, hd] at h
      · by_cases hw : s.writeErr = true
        · simp [hlt, hd, hw] at h
          exact h
        · simp only [hlt, hd, hw, if_true, if_false, List.mem_cons, Event.udpWrite.injEq,
            reduceCtorEq, false_or] at h
          rcases h with h | h
          · exact h
          · have hrec := ih _ _ p h
            exact hrec
    · simp [hlt] at h

/-- C7: in every state with at least `degree` clients, in particular whenever
`degree = 0`, `checkDegree` returns at once: it writes no datagram and does not
sleep.  Every datagram it ever writes is `meshage:` followed by the own name. -/
theorem checkDegree_idle_when_degree_met (n : Node) (env : List SolicitNet) :
    (n.degree ≤ len n.clients → checkDegree n env = ⟨[], true⟩) ∧
    (n.degree = 0 → checkDegree n env = ⟨[], true⟩) ∧
    (∀ p, Event.udpWrite p ∈ (checkDegree n env).events → p = "meshage:" ++ n.name) := by
  have h1 : n.degree ≤ len n.clients → checkDegree n env = ⟨[], true⟩ := by
    intro h
    have hlt : ¬ len n.clients < n.degree := Nat.not_lt.2 h
    unfold checkDegree
    cases env <;> simp [checkDegreeLoop, hlt]
  refine ⟨h1, ?_, ?_⟩
  · intro h0
    exact h1 (by rw [h0]; exact Nat.zero_le _)
  · intro p hp
    exact checkDegreeLoop_payload env n 1 p hp

theorem checkDegree_idle_when_degree_met_witness :
    checkDegree nodeA [okTurn 5 ∅] = ⟨[], true⟩ ∧
    checkDegree (NewNode "a" 0 9000) [okTurn 5 ∅] = ⟨[], true⟩ ∧
    checkDegree (NewNode "a" 1 9000) [okTurn 5 ∅, okTurn 6 nodeA.clients] =
      ⟨[Event.udpWrite "meshage:a", Event.sleep 1, Event.udpWrite "meshage:a", Event.sleep 2],
        true⟩ :=
  ⟨(checkDegree_idle_when_degree_met nodeA [okTurn 5 ∅]).1 (by decide),
    (checkDegree_idle_when_degree_met (NewNode "a" 0 9000) [okTurn 5 ∅]).2.1 rfl,
    by decide⟩

/-! ## Lemmas on sorting and comparing -/

theorem strLE_iff (a b : String) : strLE a b ↔ a ≤ b := by
  simp [strLE, ← not_lt, String.lt_iff_toList_lt]

theorem sortStrings_perm (l : List String) : (sortStrings l).Perm l :=
  List.perm_insertionSort strLE l

theorem sortStrings_sorted (l : List String) : List.Sorted (fun a b => a ≤ b) (sortStrings l) := by
  have htotal : IsTotal String strLE :=
    ⟨fun a b => by simp only [strLE_iff]; exact le_total a b⟩
  have htrans : IsTrans String strLE :=
    ⟨fun a b c => by simp only [strLE_iff]; exact le_trans⟩
  have h := @List.sorted_insertionSort String strLE _ htotal htrans l
  exact List.Pairwise.imp (fun {a b} hab => (strLE_iff a b).1 hab) h

theorem sortStrings_strict (l : List String) (h : l.Nodup) :
    List.Sorted (fun a b => a < b) (sortStrings l) :=
  (sortStrings_sorted l).lt_of_le (((sortStrings_perm l).nodup_iff).2 h)

/-- The result of sorting depends on the elements only, not on the order in
which `range` delivered them. -/
theorem sortStrings_unique (l ks : List String) (hperm : l.Perm ks)
    (hsorted : List.Sorted (fun a b => a ≤ b) l) : l = sortStrings ks :=
  List.eq_of_perm_of_sorted (hperm.trans (sortStrings_perm ks).symm) hsorted
    (sortStrings_sorted ks)

theorem listDiffers_iff (old clients : List String) :
    listDiffers old clients = true ↔
      (old.length ≠ clients.length ∨ ∃ i, i < old.length ∧ old[i]? ≠ clients[i]?) := by
  unfold listDiffers
  by_cases hlen : old.length = clients.length
  · simp only [hlen, bne_self_eq_false, Bool.false_eq_true, if_false, ne_eq, not_true_eq_false,
      false_or, List.any_eq_true, Prod.exists, List.mk_mem_enum_iff_getElem?, bne_iff_ne]
    constructor
    · rintro ⟨i, v, hv, hne⟩
      have hi : i < old.length := by
        rcases Nat.lt_or_ge i old.length with h | h
        · exact h
        · rw [List.getElem?_eq_none h] at hv
          cases hv
      refine ⟨i, hlen ▸ hi, ?_⟩
      rw [hv]
      exact fun e => hne e.symm
    · rintro ⟨i, hi, hne⟩
      have hi2 : i < old.length := hlen ▸ hi
      refine ⟨i, old[i], List.getElem?_eq_getElem hi2, ?_⟩
      intro e
      apply hne
      rw [e, List.getElem?_eq_getElem hi2]
  · have hb : (old.length != clients.length) = true := by simpa using hlen
    simp [hb, hlen]

theorem listDiffers_iff_ne (old clients : List String) :
    listDiffers old clients = true ↔ old ≠ clients := by
  rw [listDiffers_iff]
  constructor
  · rintro (h | ⟨i, -, h⟩) e
    · exact h (by rw [e])
    · exact h (by rw [e])
  · intro hne
    by_contra hcon
    push_neg at hcon
    apply hne
    apply List.ext_getElem?
    intro i
    rcases Nat.lt_or_ge i old.length with h | h
    · exact hcon.2 i h
    · rw [List.getElem?_eq_none h, List.getElem?_eq_none (hcon.1 ▸ h)]

/-! ## Lemmas on MSA -/

theorem MSA_changed (n : Node)
    (h : listDiffers (meshAt n.network n.name) (sortStrings n.clients.keys) = true) :
    MSA n =
      ((sequence (generateEffectiveNetwork
          { n with network := n.network.insert n.name (sortStrings n.clients.keys) })).1,
        [Event.generateEffectiveNetwork, Event.flood (announcement n)]) := by
  unfold MSA
  simp only [h, if_true]
  rfl

theorem MSA_unchanged (n : Node)
    (h : listDiffers (meshAt n.network n.name) (sortStrings n.clients.keys) = false) :
    MSA n = ((sequence n).1, [Event.flood (announcement n)]) := by
  unfold MSA
  simp only [h, Bool.false_eq_true, if_false]
  rfl

/-! ## C8 -/

/-- C8: in every state, whether or not the client list differs from
`network[self]`, one call of `MSA` floods exactly one message; its source is
the own name, its route the own name alone, its command `MSA`, its body the
keys of `clients` in ascending order, and its ID the value `sequence()`
returns, which is the own counter plus one and is stored as the new counter. -/
theorem MSA_floods_one_announcement (n : Node) :
    (MSA n).2.filterMap floodOf =
      [{ Source := n.name, CurrentRoute := [n.name], ID := (sequence n).2,
         Command := Command.MSA, Body := Body.strings (sortStrings n.clients.keys) }] ∧
    (sequence n).2 = ((n.sequences.lookup n.name).getD 0 + 1) % 2 ^ 64 ∧
    (MSA n).1.sequences.lookup n.name = some ((sequence n).2) ∧
    (MSA n).1.sequences = n.sequences.insert n.name ((sequence n).2) ∧
    List.Sorted (fun a b => a ≤ b) (sortStrings n.clients.keys) ∧
    (sortStrings n.clients.keys).Perm n.clients.keys := by
  have hseq : (MSA n).1.sequences = n.sequences.insert n.name ((sequence n).2) := by
    cases h : listDiffers (meshAt n.network n.name) (sortStrings n.clients.keys)
    · rw [MSA_unchanged n h]
      rfl
    · rw [MSA_changed n h]
      rfl
  refine ⟨?_, rfl, ?_, hseq, sortStrings_sorted _, sortStrings_perm _⟩
  · cases h : listDiffers (meshAt n.network n.name) (sortStrings n.clients.keys)
    · rw [MSA_unchanged n h]
      rfl
    · rw [MSA_changed n h]
      rfl
  · rw [hseq]
    exact AList.lookup_insert _

/-! ## C9 -/

/-- C9: after `MSA`, `network[self]` (absent read as empty) is the strictly
ascending, hence duplicate-free, list of exactly the keys of `clients`.  When
the previous `network[self]` differs from that list in length or at some
position, `MSA` stores the list under `network[self]`, leaves the other entries
alone and regenerates the effective network; otherwise `network`,
`effectiveNetwork` and `routes` are as before and `generateEffectiveNetwork`
is not called. -/
theorem MSA_network_self (n : Node) :
    meshAt (MSA n).1.network n.name = sortStrings n.clients.keys ∧
    List.Sorted (fun a b => a < b) (sortStrings n.clients.keys) ∧
    (sortStrings n.clients.keys).Nodup ∧
    (∀ k, k ∈ sortStrings n.clients.keys ↔ k ∈ n.clients) ∧
    (((meshAt n.network n.name).length ≠ (sortStrings n.clients.keys).length ∨
        ∃ i, i < (meshAt n.network n.name).length ∧
          (meshAt n.network n.name)[i]? ≠ (sortStrings n.clients.keys)[i]?) →
      (MSA n).1.network = n.network.insert n.name (sortStrings n.clients.keys) ∧
      (∀ k, k ≠ n.name → (MSA n).1.network.lookup k = n.network.lookup k) ∧
      (MSA n).1.effectiveNetwork = (generateEffectiveNetwork (MSA n).1).effectiveNetwork ∧
      (MSA n).1.routes = (generateEffectiveNetwork (MSA n).1).routes ∧
      Event.generateEffectiveNetwork ∈ (MSA n).2) ∧
    (¬ ((meshAt n.network n.name).length ≠ (sortStrings n.clients.keys).length ∨
        ∃ i, i < (meshAt n.network n.name).length ∧
          (meshAt n.network n.name)[i]? ≠ (sortStrings n.clients.keys)[i]?) →
      (MSA n).1.network = n.network ∧
      (MSA n).1.effectiveNetwork = n.effectiveNetwork ∧
      (MSA n).1.routes = n.routes ∧
      Event.generateEffectiveNetwork ∉ (MSA n).2) := by
  have hnodup : (sortStrings n.clients.keys).Nodup :=
    ((sortStrings_perm _).nodup_iff).2 n.clients.keys_nodup
  have hmem : ∀ k, k ∈ sortStrings n.clients.keys ↔ k ∈ n.clients := by
    intro k
    rw [AList.mem_keys]
    exact (sortStrings_perm _).mem_iff
  refine ⟨?_, sortStrings_strict _ n.clients.keys_nodup, hnodup, hmem, ?_, ?_⟩
  · cases h : listDiffers (meshAt n.network n.name) (sortStrings n.clients.keys)
    · rw [MSA_unchanged n h]
      have hsame : ¬ listDiffers (meshAt n.network n.name) (sortStrings n.clients.keys) = true := by
        simp [h]
      rw [listDiffers_iff_ne, not_not] at hsame
      exact hsame
    · rw [MSA_changed n h]
      show ((n.network.insert n.name (sortStrings n.clients.keys)).lookup n.name).getD [] = _
      rw [AList.lookup_insert]
      rfl
  · intro hd
    have h := (listDiffers_iff _ _).2 hd
    rw [MSA_changed n h]
    refine ⟨rfl, ?_, rfl, rfl, by simp⟩
    intro k hk
    exact AList.lookup_insert_ne hk
  · intro hd
    have h : listDiffers (meshAt n.network n.name) (sortStrings n.clients.keys) = false := by
      rw [← Bool.not_eq_true, listDiffers_iff]
      exact hd
    rw [MSA_unchanged n h]
    exact ⟨rfl, rfl, rfl, by simp⟩

theorem MSA_network_self_witness :
    meshAt nodeM.network "m" = ["amy"] ∧
    (MSA nodeM).1.network = nodeM.network.insert "m" ["amy", "bob", "zed"] ∧
    (MSA (MSA nodeM).1).1.network = (MSA nodeM).1.network ∧
    Event.generateEffectiveNetwork ∉ (MSA (MSA nodeM).1).2 :=
  ⟨by decide,
    ((MSA_network_self nodeM).2.2.2.2.1 (Or.inl (by decide))).1,
    ((MSA_network_self (MSA nodeM).1).2.2.2.2.2 (by decide)).1,
    ((MSA_network_self (MSA nodeM).1).2.2.2.2.2 (by decide)).2.2.2⟩

/-! ## Lemmas on memory -/

theorem readSlice_congr (m1 m2 : Memory) (s : Slice)
    (h : arrayAt m1 s.array = arrayAt m2 s.array) : readSlice m1 s = readSlice m2 s := by
  unfold readSlice
  rw [h]

theorem readSlice_of_valid (base m : Memory) (s : Slice) (hv : validSlice base s = true)
    (harr : ∀ a, a < base.arrays.length → arrayAt m a = arrayAt base a) :
    readSlice m s = readSlice base s := by
  unfold validSlice at hv
  simp only [Bool.or_eq_true, beq_iff_eq, Bool.and_eq_true, decide_eq_true_eq] at hv
  rcases hv with h0 | ⟨h1, -⟩
  · simp [readSlice, h0]
  · exact readSlice_congr m base s (harr _ h1)

theorem readSlice_length (base : Memory) (s : Slice) (hv : validSlice base s = true) :
    (readSlice base s).length = s.len := by
  unfold validSlice at hv
  simp only [Bool.or_eq_true, beq_iff_eq, Bool.and_eq_true, decide_eq_true_eq] at hv
  rcases hv with h0 | ⟨-, h2⟩
  · simp [readSlice, h0]
  · simp only [readSlice, List.length_take, List.length_drop]
    omega

theorem arrayAt_append_left (l X : List (List String)) (ms ms2 : List (GoMap Slice)) (a : Nat)
    (h : a < l.length) : arrayAt ⟨l ++ X, ms⟩ a = arrayAt ⟨l, ms2⟩ a := by
  simp [arrayAt, List.getElem?_append_left h]

theorem readSlice_last (arrs : List (List String)) (ms : List (GoMap Slice)) (c : List String)
    (len : Nat) (h : c.length = len) : readSlice ⟨arrs ++ [c], ms⟩ ⟨arrs.length, 0, len⟩ = c := by
  simp only [readSlice, arrayAt, List.getElem?_concat_length, Option.getD_some, List.drop_zero]
  exact List.take_of_length_le (by omega)

/-- One turn of the loop of `Mesh`: a new last array holding the elements of
the copied slice, and the new slice stored under the key in the map `ret`. -/
theorem meshCopyEntry_eq (base mem : Memory) (ret : Nat) (e : (_ : String) × Slice)
    (hpre : ∃ X, mem.arrays = base.arrays ++ X) (hv : validSlice base e.2 = true) :
    meshCopyEntry ret mem e =
      { arrays := mem.arrays ++ [readSlice base e.2]
        meshes := mem.meshes.set ret ((meshObj mem ret).insert e.1 ⟨mem.arrays.length, 0, e.2.len⟩) } := by
  obtain ⟨X, hX⟩ := hpre
  have hread : readSlice ⟨mem.arrays ++ [List.replicate e.2.len ""], mem.meshes⟩ e.2 =
      readSlice base e.2 := by
    apply readSlice_of_valid base _ e.2 hv
    intro a ha
    rw [hX, List.append_assoc]
    exact arrayAt_append_left _ _ _ _ a ha
  have hlen := readSlice_length base e.2 hv
  have hnew : arrayAt ⟨mem.arrays ++ [List.replicate e.2.len ""], mem.meshes⟩ mem.arrays.length =
      List.replicate e.2.len "" := by
    simp [arrayAt]
  unfold meshCopyEntry makeSlice copy mapStore
  simp only [hread, hnew, Nat.min_self, List.take_zero, List.nil_append, Nat.zero_add]
  have htake : (readSlice base e.2).take e.2.len = readSlice base e.2 :=
    List.take_of_length_le (by omega)
  rw [htake, hlen]
  have hdrop : (List.replicate e.2.len "").drop e.2.len = [] :=
    List.drop_eq_nil_of_le (by simp)
  rw [hdrop, List.append_nil]
  congr 1
  simp

theorem meshCopyEntry_inv (base mem : Memory) (done : List ((_ : String) × Slice))
    (e : (_ : String) × Slice) (hinv : MeshInv base mem done)
    (hv : validSlice base e.2 = true) :
    MeshInv base (meshCopyEntry base.meshes.length mem e) (done ++ [e]) := by
  have heq := meshCopyEntry_eq base mem base.meshes.length e hinv.1 hv
  obtain ⟨⟨X, hX⟩, b, hb, hkeys, hsl⟩ := hinv
  have hobj : meshObj mem base.meshes.length = b := by
    simp [meshObj, hb]
  rw [heq, hobj]
  refine ⟨⟨X ++ [readSlice base e.2], by simp [hX]⟩,
    b.insert e.1 ⟨mem.arrays.length, 0, e.2.len⟩, by simp [hb], ?_, ?_⟩
  · intro k
    rw [AList.mem_insert, hkeys k]
    constructor
    · rintro (rfl | ⟨v, hv2⟩)
      · exact ⟨e.2, by simp⟩
      · exact ⟨v, by simp [hv2]⟩
    · rintro ⟨v, hmem⟩
      rcases List.mem_append.1 hmem with h | h
      · exact Or.inr ⟨v, h⟩
      · left
        have h2 : (⟨k, v⟩ : (_ : String) × Slice) = e := by simpa using h
        rw [← h2]
  · intro k sl hlook
    by_cases hk : k = e.1
    · subst hk
      rw [AList.lookup_insert] at hlook
      obtain rfl := Option.some.inj hlook
      refine ⟨by simp [hX], by simp, e.2, by simp, ?_⟩
      exact readSlice_last mem.arrays _ _ e.2.len (readSlice_length base e.2 hv)
    · rw [AList.lookup_insert_ne hk] at hlook
      obtain ⟨h1, h2, v, hv1, hv2⟩ := hsl k sl hlook
      refine ⟨h1, by simp; omega, v, by simp [hv1], ?_⟩
      rw [← hv2]
      apply readSlice_congr
      simp [arrayAt, List.getElem?_append_left h2]

theorem meshLoop_inv (base : Memory) (rest : List ((_ : String) × Slice)) :
    ∀ (mem : Memory) (done : List ((_ : String) × Slice)),
      MeshInv base mem done → (∀ e ∈ rest, validSlice base e.2 = true) →
      MeshInv base (rest.foldl (meshCopyEntry base.meshes.length) mem) (done ++ rest) := by
  induction rest with
  | nil =>
    intro mem done hinv _
    simpa using hinv
  | cons e rest ih =>
    intro mem done hinv hv
    have h1 := meshCopyEntry_inv base mem done e hinv (hv e (by simp))
    have h2 := ih _ _ h1 (fun x hx => hv x (by simp [hx]))
    simpa using h2

theorem Mesh_inv (n : MeshNode)
    (hwf : ∀ k v, (meshObj n.mem n.effectiveNetwork).lookup k = some v →
      validSlice n.mem v = true) :
    MeshInv n.mem (Mesh n).1.mem (meshObj n.mem n.effectiveNetwork).entries := by
  have h0 : MeshInv n.mem (makeMesh n.mem).1 [] := by
    refine ⟨⟨[], by simp [makeMesh]⟩, ∅, rfl, ?_, ?_⟩
    · intro k
      simp
    · intro k sl h
      simp at h
  have h := meshLoop_inv n.mem (meshObj n.mem n.effectiveNetwork).entries _ [] h0 (by
    intro e he
    obtain ⟨k, v⟩ := e
    exact hwf k v (AList.mem_lookup_iff.2 he))
  simpa [Mesh, makeMesh] using h

/-- A map whose object and whose old arrays are as in `base` holds the same
lists as in `base`. -/
theorem meshValue_frame (base m : Memory) (r : Nat)
    (hobj : meshObj m r = meshObj base r)
    (harr : ∀ a, a < base.arrays.length → arrayAt m a = arrayAt base a)
    (hwf : ∀ k v, (meshObj base r).lookup k = some v → validSlice base v = true) (k : String) :
    meshValue m r k = meshValue base r k := by
  unfold meshValue
  rw [hobj]
  cases h : (meshObj base r).lookup k with
  | none => rfl
  | some v => simp [readSlice_of_valid base m v (hwf k v h) harr]

/-! ## C10 -/

/-- C10: for a node whose `effectiveNetwork` is an allocated map with slices
inside allocated arrays, `Mesh` returns a map with exactly the keys of
`effectiveNetwork`, each mapped to a list with the same elements in the same
order; `network`, `effectiveNetwork` and `routes`, every map object and every
array of the node are as before.  The returned map is a new object and each
of its lists lies in a new array, so assigning to an element of a returned
list, or storing or deleting a key in the returned map, leaves what
`effectiveNetwork` holds unchanged. -/
theorem Mesh_returns_fresh_copy (n : MeshNode)
    (hvalid : n.effectiveNetwork < n.mem.meshes.length)
    (hwf : ∀ k v, (meshObj n.mem n.effectiveNetwork).lookup k = some v →
      validSlice n.mem v = true) :
    (∀ k, k ∈ meshObj (Mesh n).1.mem (Mesh n).2 ↔ k ∈ meshObj n.mem n.effectiveNetwork) ∧
    (∀ k, meshValue (Mesh n).1.mem (Mesh n).2 k = meshValue n.mem n.effectiveNetwork k) ∧
    ((Mesh n).1.network = n.network ∧ (Mesh n).1.effectiveNetwork = n.effectiveNetwork ∧
      (Mesh n).1.routes = n.routes) ∧
    (∀ r, r < n.mem.meshes.length → meshObj (Mesh n).1.mem r = meshObj n.mem r) ∧
    (∀ a, a < n.mem.arrays.length → arrayAt (Mesh n).1.mem a = arrayAt n.mem a) ∧
    (∀ k, meshValue (Mesh n).1.mem n.effectiveNetwork k = meshValue n.mem n.effectiveNetwork k) ∧
    (n.mem.meshes.length ≤ (Mesh n).2 ∧
      ∀ k sl, (meshObj (Mesh n).1.mem (Mesh n).2).lookup k = some sl →
        n.mem.arrays.length ≤ sl.array) ∧
    (∀ k sl i x k2, (meshObj (Mesh n).1.mem (Mesh n).2).lookup k = some sl →
      meshValue (setIndex (Mesh n).1.mem sl i x) n.effectiveNetwork k2 =
        meshValue n.mem n.effectiveNetwork k2) ∧
    (∀ k v k2, meshValue (mapStore (Mesh n).1.mem (Mesh n).2 k v) n.effectiveNetwork k2 =
        meshValue n.mem n.effectiveNetwork k2) ∧
    (∀ k k2, meshValue (mapDelete (Mesh n).1.mem (Mesh n).2 k) n.effectiveNetwork k2 =
        meshValue n.mem n.effectiveNetwork k2) := by
  obtain ⟨⟨X, hX⟩, b, hb, hkeys, hsl⟩ := Mesh_inv n hwf
  have hret : (Mesh n).2 = n.mem.meshes.length := rfl
  have hobjret : meshObj (Mesh n).1.mem (Mesh n).2 = b := by
    simp [meshObj, hb, hret]
  have hobj : ∀ r, r < n.mem.meshes.length → meshObj (Mesh n).1.mem r = meshObj n.mem r := by
    intro r hr
    simp [meshObj, hb, List.getElem?_append_left hr]
  have harr : ∀ a, a < n.mem.arrays.length → arrayAt (Mesh n).1.mem a = arrayAt n.mem a := by
    intro a ha
    simp [arrayAt, hX, List.getElem?_append_left ha]
  have hmemE : ∀ k, (∃ v, (⟨k, v⟩ : (_ : String) × Slice) ∈
      (meshObj n.mem n.effectiveNetwork).entries) ↔ k ∈ meshObj n.mem n.effectiveNetwork := by
    intro k
    rw [AList.mem_keys, AList.keys, List.mem_keys]
  have hne : n.effectiveNetwork ≠ n.mem.meshes.length := Nat.ne_of_lt hvalid
  rw [hobjret]
  refine ⟨?_, ?_, ⟨rfl, rfl, rfl⟩, hobj, harr, ?_, ⟨Nat.le_of_eq hret.symm, ?_⟩, ?_, ?_, ?_⟩
  · intro k
    rw [hkeys k, hmemE k]
  · intro k
    unfold meshValue
    rw [hobjret]
    cases hl : b.lookup k with
    | none =>
      have hnot : k ∉ meshObj n.mem n.effectiveNetwork := by
        rw [← hmemE k, ← hkeys k]
        exact AList.lookup_eq_none.1 hl
      rw [AList.lookup_eq_none.2 hnot]
      rfl
    | some sl =>
      obtain ⟨-, -, v, hv1, hv2⟩ := hsl k sl hl
      have hlv : (meshObj n.mem n.effectiveNetwork).lookup k = some v :=
        AList.mem_lookup_iff.2 hv1
      rw [hlv]
      simp [hv2]
  · exact meshValue_frame n.mem _ _ (hobj _ hvalid) harr hwf
  · intro k sl hl
    exact (hsl k sl hl).1
  · intro k sl i x k2 hl
    have hfresh := (hsl k sl hl).1
    apply meshValue_frame n.mem _ _ _ _ hwf
    · have : meshObj (setIndex (Mesh n).1.mem sl i x) n.effectiveNetwork =
          meshObj (Mesh n).1.mem n.effectiveNetwork := by
        unfold setIndex
        split_ifs <;> rfl
      rw [this]
      exact hobj _ hvalid
    · intro a ha
      rw [← harr a ha]
      unfold setIndex
      split_ifs
      · have hne2 : sl.array ≠ a := by omega
        simp [arrayAt, List.getElem?_set_ne hne2]
      · rfl
  · intro k v k2
    apply meshValue_frame n.mem _ _ _ _ hwf
    · rw [← hobj _ hvalid]
      simp [mapStore, meshObj, hret, List.getElem?_set_ne hne.symm]
    · intro a ha
      rw [← harr a ha]
      rfl
  · intro k k2
    apply meshValue_frame n.mem _ _ _ _ hwf
    · rw [← hobj _ hvalid]
      simp [mapDelete, meshObj, hret, List.getElem?_set_ne hne.symm]
    · intro a ha
      rw [← harr a ha]
      rfl

theorem Mesh_returns_fresh_copy_witness :
    meshValue meshNode1.mem meshNode1.effectiveNetwork "b" = some ["a"] ∧
    (Mesh meshNode1).2 = 2 ∧
    meshValue (Mesh meshNode1).1.mem (Mesh meshNode1).2 "b" = some ["a"] ∧
    meshValue (setIndex (Mesh meshNode1).1.mem ⟨2, 0, 1⟩ 0 "zzz") (Mesh meshNode1).2 "b" =
      some ["zzz"] ∧
    meshValue (setIndex (Mesh meshNode1).1.mem ⟨2, 0, 1⟩ 0 "zzz") meshNode1.effectiveNetwork "b" =
      meshValue meshNode1.mem meshNode1.effectiveNetwork "b" :=
  have hwf : ∀ k v, (meshObj meshNode1.mem meshNode1.effectiveNetwork).lookup k = some v →
      validSlice meshNode1.mem v = true := by
    intro k v h
    have hmem : (⟨k, v⟩ : (_ : String) × Slice) ∈
        (meshObj meshNode1.mem meshNode1.effectiveNetwork).entries := AList.mem_lookup_iff.1 h
    have hall : ∀ e ∈ (meshObj meshNode1.mem meshNode1.effectiveNetwork).entries,
        validSlice meshNode1.mem e.2 = true := by decide
    exact hall _ hmem
  ⟨by decide, by decide, by decide, by decide,
    (Mesh_returns_fresh_copy meshNode1 (by decide) hwf).2.2.2.2.2.2.2.1 "b" ⟨2, 0, 1⟩ 0 "zzz" "b"
      (by decide)⟩

/-! ## C12 -/

theorem handleMSA_eq (n : Node) (m : Message) (body : List String)
    (hbody : m.Body = Body.strings body) :
    handleMSA n m =
      if listDiffers (meshAt n.network m.Source) body = true
      then some (handleMSAUpdate n m.Source body) else some (n, []) := by
  unfold handleMSA listDiffers
  rw [hbody]
  by_cases hlen : (meshAt n.network m.Source).length = body.length
  · simp only [hlen, beq_self_eq_true, if_true, bne_self_eq_false, Bool.false_eq_true, if_false]
    cases (meshAt n.network m.Source).enum.any (fun iv => body[iv.1]? != some iv.2) <;> simp
  · have h1 : ((meshAt n.network m.Source).length == body.length) = false := by simpa using hlen
    have h2 : ((meshAt n.network m.Source).length != body.length) = true := by simpa using hlen
    simp [h1, h2]

/-- C12: for a message whose body is a list of strings, when `network[m.Source]`
(absent read as empty) equals the body element for element, `handleMSA` leaves
the node, in particular `network`, `effectiveNetwork` and `routes`, as it was;
otherwise it stores the body under `network[m.Source]`, leaves every other
entry of `network` alone, empties `routes` and generates the effective network
again. -/
theorem handleMSA_replaces_iff_differs (n : Node) (m : Message) (body : List String)
    (hbody : m.Body = Body.strings body) :
    (meshAt n.network m.Source = body → handleMSA n m = some (n, [])) ∧
    (meshAt n.network m.Source ≠ body →
      handleMSA n m =
        some (generateEffectiveNetwork
            { n with routes := ∅, network := n.network.insert m.Source body },
          [Event.generateEffectiveNetwork]) ∧
      ∀ n2 evs, handleMSA n m = some (n2, evs) →
        n2.network = n.network.insert m.Source body ∧
        meshAt n2.network m.Source = body ∧
        (∀ k, k ≠ m.Source → n2.network.lookup k = n.network.lookup k) ∧
        n2.effectiveNetwork = effectiveEdges n2.network ∧
        n2.routes = (generateEffectiveNetwork { n2 with routes := ∅ }).routes ∧
        n2.clients = n.clients ∧ n2.sequences = n.sequences) := by
  have heq := handleMSA_eq n m body hbody
  constructor
  · intro hsame
    have hnd : ¬ listDiffers (meshAt n.network m.Source) body = true := by
      rw [listDiffers_iff_ne]
      exact fun h => h hsame
    rw [heq, if_neg hnd]
  · intro hne
    have hd : listDiffers (meshAt n.network m.Source) body = true :=
      (listDiffers_iff_ne _ _).2 hne
    rw [heq, if_pos hd]
    refine ⟨rfl, ?_⟩
    intro n2 evs h
    have h2 : handleMSAUpdate n m.Source body = (n2, evs) := Option.some.inj h
    have h3 : n2 = generateEffectiveNetwork
        { n with routes := ∅, network := n.network.insert m.Source body } := by
      rw [← (Prod.mk.inj h2).1]
    subst h3
    refine ⟨rfl, ?_, ?_, rfl, rfl, rfl, rfl⟩
    · show ((n.network.insert m.Source body).lookup m.Source).getD [] = body
      rw [AList.lookup_insert]
      rfl
    · intro k hk
      exact AList.lookup_insert_ne hk

theorem handleMSA_replaces_iff_differs_witness :
    handleMSA nodeM ⟨"m", ["m"], 7, Command.MSA, Body.strings ["amy"]⟩ = some (nodeM, []) ∧
    (handleMSA nodeM ⟨"zed", ["zed"], 7, Command.MSA, Body.strings ["m"]⟩).map
        (fun r => (r.1.network.entries, r.1.routes.entries, r.2)) =
      some ([⟨"zed", ["m"]⟩, ⟨"m", ["amy"]⟩], [⟨"m", "m"⟩], [Event.generateEffectiveNetwork]) :=
  ⟨(handleMSA_replaces_iff_differs nodeM ⟨"m", ["m"], 7, Command.MSA, Body.strings ["amy"]⟩
      ["amy"] rfl).1 (by decide),
    by decide⟩

/-! ## C13 -/

/-- C13: `sequence` stores under `sequences[self]` the previous value (0 when
the entry is missing) plus one, computed on 64 bits, and returns it; the
entries of the other origins and the rest of the node are untouched.  On a new
node the first call returns 1, and as long as the counter is below
`2^64 - 1` the returned ID is the counter plus one, so that a call returns
more than the call before it. -/
theorem sequence_increments (n : Node) :
    (sequence n).2 = ((n.sequences.lookup n.name).getD 0 + 1) % 2 ^ 64 ∧
    (sequence n).1.sequences.lookup n.name = some (sequence n).2 ∧
    (∀ k, k ≠ n.name → (sequence n).1.sequences.lookup k = n.sequences.lookup k) ∧
    (sequence n).1 = { n with sequences := (sequence n).1.sequences } ∧
    (∀ name degree port, (sequence (NewNode name degree port)).2 = 1) ∧
    ((n.sequences.lookup n.name).getD 0 < 2 ^ 64 - 1 →
      (sequence n).2 = (n.sequences.lookup n.name).getD 0 + 1 ∧
      (n.sequences.lookup n.name).getD 0 < (sequence n).2) ∧
    ((sequence n).2 < 2 ^ 64 - 1 →
      (sequence (sequence n).1).2 = (sequence n).2 + 1 ∧
      (sequence n).2 < (sequence (sequence n).1).2) := by
  have hlook : (sequence n).1.sequences.lookup n.name = some (sequence n).2 := by
    show (n.sequences.insert n.name _).lookup n.name = _
    rw [AList.lookup_insert]
    rfl
  refine ⟨rfl, hlook, ?_, rfl, ?_, ?_, ?_⟩
  · intro k hk
    exact AList.lookup_insert_ne hk
  · intro name degree port
    rfl
  · intro h
    have h2 : (sequence n).2 = (n.sequences.lookup n.name).getD 0 + 1 := by
      show ((n.sequences.lookup n.name).getD 0 + 1) % 2 ^ 64 = _
      exact Nat.mod_eq_of_lt (by omega)
    exact ⟨h2, by omega⟩
  · intro h
    have h2 : (sequence (sequence n).1).2 = (sequence n).2 + 1 := by
      show (((sequence n).1.sequences.lookup n.name).getD 0 + 1) % 2 ^ 64 = _
      rw [hlook]
      exact Nat.mod_eq_of_lt (by simp only [Option.getD_some]; omega)
    exact ⟨h2, by omega⟩

theorem sequence_increments_witness :
    (sequence nodeM).2 = 42 ∧ (sequence (sequence nodeM).1).2 = 43 ∧
    (sequence { nodeM with sequences := (∅ : GoMap Nat).insert "m" (2 ^ 64 - 1) }).2 = 0 :=
  ⟨((sequence_increments nodeM).2.2.2.2.2.1 (by decide)).1,
    ((sequence_increments nodeM).2.2.2.2.2.2 (by decide)).1,
    by decide⟩

/-! ## C14 -/

/-- A turn of the loop either ends the run without a sleep or writes the
datagram, sleeps for the draw modulo `2 ^ backoff` and goes on with the next
backoff. -/
theorem checkDegreeLoop_cons (s : SolicitNet) (rest : List SolicitNet) (n : Node) (b : Nat) :
    (checkDegreeLoop (s :: rest) n b).events.filterMap sleepOf = [] ∨
    (checkDegreeLoop (s :: rest) n b).events =
      Event.udpWrite ("meshage:" ++ n.name) :: Event.sleep (s.rnd % 2 ^ b) ::
        (checkDegreeLoop rest { n with clients := s.clients, degree := s.degree }
          (if b < 7 then b + 1 else b)).events := by
  simp only [checkDegreeLoop]
  by_cases hlt : len n.clients < n.degree
  · by_cases hd : s.dialErr = true
    · left
      simp [hlt, hd, sleepOf]
    · by_cases hw : s.writeErr = true
      · left
        simp [hlt, hd, hw, sleepOf]
      · right
        simp [hlt, hd, hw, Nat.one_shiftLeft]
  · left
    simp [hlt]

/-- In a run of the loop that starts with the backoff `b`, the sleep number
`j` (from 0) is the draw of turn `j` modulo `2 ^ min (b + j) 7`, and it is the
event right after the datagram number `j`. -/
theorem checkDegreeLoop_sleeps (env : List SolicitNet) :
    ∀ (n : Node) (b j w : Nat), 1 ≤ b → b ≤ 7 →
      ((checkDegreeLoop env n b).events.filterMap sleepOf)[j]? = some w →
      (∃ s, env[j]? = some s ∧ w = s.rnd % 2 ^ (min (b + j) 7)) ∧
      (checkDegreeLoop env n b).events[2 * j]? = some (Event.udpWrite ("meshage:" ++ n.name)) ∧
      (checkDegreeLoop env n b).events[2 * j + 1]? = some (Event.sleep w) := by
  induction env with
  | nil =>
    intro n b j w _ _ h
    unfold checkDegreeLoop at h
    split_ifs at h <;> simp at h
  | cons s rest ih =>
    intro n b j w hb1 hb7 h
    rcases checkDegreeLoop_cons s rest n b with hnil | hturn
    · rw [hnil] at h
      simp at h
    · rw [hturn] at h ⊢
      cases j with
      | zero =>
        have h0 : s.rnd % 2 ^ b = w := by simpa [sleepOf] using h
        refine ⟨⟨s, by simp, ?_⟩, rfl, ?_⟩
        · rw [← h0, Nat.add_zero, Nat.min_eq_left hb7]
        · rw [h0]
          simp
      | succ j =>
        have hj : ((checkDegreeLoop rest { n with clients := s.clients, degree := s.degree }
            (if b < 7 then b + 1 else b)).events.filterMap sleepOf)[j]? = some w := by
          simpa [sleepOf] using h
        have hb1n : 1 ≤ (if b < 7 then b + 1 else b) := by split_ifs <;> omega
        have hb7n : (if b < 7 then b + 1 else b) ≤ 7 := by split_ifs <;> omega
        have hrec := ih _ _ j w hb1n hb7n hj
        obtain ⟨⟨s2, hs2, hw2⟩, he1, he2⟩ := hrec
        have hmin : min ((if b < 7 then b + 1 else b) + j) 7 = min (b + (j + 1)) 7 := by
          split_ifs <;> omega
        refine ⟨⟨s2, by simpa using hs2, by rw [hw2, hmin]⟩, ?_, ?_⟩
        · have h2 : 2 * (j + 1) = 2 * j + 1 + 1 := by omega
          rw [h2, List.getElem?_cons_succ, List.getElem?_cons_succ]
          exact he1
        · have h2 : 2 * (j + 1) + 1 = 2 * j + 1 + 1 + 1 := by omega
          rw [h2, List.getElem?_cons_succ, List.getElem?_cons_succ]
          exact he2

/-- C14: in every run of `checkDegree`, for every `k ≥ 1`, the `k`-th sleep
comes right after the `k`-th solicitation and lasts a whole number `w` of
seconds with `w < 2 ^ b` for `b = min k 7`; it is the draw of that turn
reduced modulo `2 ^ b`, so `b` is the backoff in force, starting at 1, growing
by one per turn and capped at 7.  Hence no sleep reaches 128 seconds. -/
theorem checkDegree_sleep_bound (n : Node) (env : List SolicitNet) (k w : Nat) (hk : 1 ≤ k)
    (hsleep : ((checkDegree n env).events.filterMap sleepOf)[k - 1]? = some w) :
    w < 2 ^ (min k 7) ∧ w < 128 ∧
    (∃ s, env[k - 1]? = some s ∧ w = s.rnd % 2 ^ (min k 7)) ∧
    (checkDegree n env).events[2 * (k - 1)]? = some (Event.udpWrite ("meshage:" ++ n.name)) ∧
    (checkDegree n env).events[2 * (k - 1) + 1]? = some (Event.sleep w) := by
  obtain ⟨⟨s, hs, hw⟩, he1, he2⟩ :=
    checkDegreeLoop_sleeps env n 1 (k - 1) w (Nat.le_refl 1) (by omega) hsleep
  have hk2 : 1 + (k - 1) = k := by omega
  rw [hk2] at hw
  have hlt : w < 2 ^ (min k 7) := by
    rw [hw]
    exact Nat.mod_lt _ (Nat.pos_pow_of_pos _ (by omega))
  have hle : 2 ^ (min k 7) ≤ 2 ^ 7 := Nat.pow_le_pow_right (by omega) (Nat.min_le_right k 7)
  exact ⟨hlt, by omega, ⟨s, hs, hw⟩, he1, he2⟩

theorem checkDegree_sleep_bound_witness :
    (checkDegree (NewNode "a" 1 9000) (List.replicate 10 (okTurn 1000 ∅))).events.filterMap
        sleepOf = [0, 0, 0, 8, 8, 40, 104, 104, 104, 104] ∧
    104 < 2 ^ (min 9 7) :=
  ⟨by decide,
    (checkDegree_sleep_bound (NewNode "a" 1 9000) (List.replicate 10 (okTurn 1000 ∅)) 9 104
      (by decide) (by decide)).1⟩

/-! ## C15 -/

theorem dialSide_eq (A : Node) (connA connB : Nat) :
    dialSide A connA connB =
      { connect := fun _ => .ok connB, recvName := .ok A.name,
        recvSolicited := .ok (decide (len A.clients < A.degree)), sendName := none } := by
  simp [dialSide, newConnection, sentString, sentBool, received]

/-- The three ways the dial side of a handshake without transport error ends. -/
theorem handshake_dial_cases (A B : Node) (connA connB : Nat) (host : String) (solicited : Bool) :
    ((A.name ∈ B.clients ∧
        dial B (dialSide A connA connB) host solicited =
          ⟨B, some "already connected", [Event.close connB]⟩) ∨
      (A.name ∉ B.clients ∧ (solicited = true ∧ A.degree ≤ len A.clients) ∧
        dial B (dialSide A connA connB) host solicited = ⟨B, none, [Event.close connB]⟩)) ∨
    (A.name ∉ B.clients ∧ ¬ (solicited = true ∧ A.degree ≤ len A.clients) ∧
      dial B (dialSide A connA connB) host solicited =
        ⟨{ B with clients := B.clients.insert A.name ⟨connB, A.name⟩ }, none,
          [Event.encodeString connB B.name, Event.goClientHandler A.name]⟩) := by
  rw [dialSide_eq]
  by_cases hdup : A.name ∈ B.clients
  · have hany := (any_key_eq_iff B.clients A.name).2 hdup
    exact Or.inl (Or.inl ⟨hdup, by simp [dial, hany]⟩)
  · have hany : (B.clients.keys.any (fun k => k == A.name)) = false := by
      rw [← Bool.not_eq_true, any_key_eq_iff]
      exact hdup
    by_cases hfull : solicited = true ∧ A.degree ≤ len A.clients
    · have hflag : decide (len A.clients < A.degree) = false := by
        simp only [decide_eq_false_iff_not, Nat.not_lt]
        exact hfull.2
      exact Or.inl (Or.inr ⟨hdup, hfull, by simp [dial, hany, hflag, hfull.1]⟩)
    · have hb : (solicited && !decide (len A.clients < A.degree)) = false := by
        cases solicited
        · rfl
        · have : len A.clients < A.degree := by
            by_contra hlt
            exact hfull ⟨rfl, Nat.not_lt.1 hlt⟩
          simp [this]
      exact Or.inr ⟨hdup, hfull, by simp [dial, hany, hb]⟩

/-- C15: in a handshake without transport error between the accepting node `A`
and the dialling node `B`, both sides register each other (each stores the
connection under the name of the other and starts its client handler) exactly
when the name of `A` is not yet a key of `B.clients` and it is not the case
that `B` dialled as solicited while `A` had at least `degree` clients;
otherwise both nodes, and so both `clients` maps, are as before.  Hence `B`
registers `A` if and only if `A` registers `B`. -/
theorem handshake_agreement (A B : Node) (connA connB : Nat) (host : String)
    (solicited : Bool) :
    ((A.name ∉ B.clients ∧ ¬ (solicited = true ∧ A.degree ≤ len A.clients)) →
      (handshake A B connA connB host solicited).2.node.clients =
        B.clients.insert A.name ⟨connB, A.name⟩ ∧
      (handshake A B connA connB host solicited).2.err = none ∧
      Event.goClientHandler A.name ∈ (handshake A B connA connB host solicited).2.events ∧
      (handshake A B connA connB host solicited).1.1.clients =
        A.clients.insert B.name ⟨connA, B.name⟩ ∧
      Event.goClientHandler B.name ∈ (handshake A B connA connB host solicited).1.2) ∧
    (¬ (A.name ∉ B.clients ∧ ¬ (solicited = true ∧ A.degree ≤ len A.clients)) →
      (handshake A B connA connB host solicited).2.node = B ∧
      (handshake A B connA connB host solicited).1.1 = A ∧
      (∀ name, Event.goClientHandler name ∉ (handshake A B connA connB host solicited).2.events) ∧
      (∀ name, Event.goClientHandler name ∉ (handshake A B connA connB host solicited).1.2)) ∧
    ((∃ name, Event.goClientHandler name ∈ (handshake A B connA connB host solicited).2.events) ↔
      (∃ name, Event.goClientHandler name ∈ (handshake A B connA connB host solicited).1.2)) ∧
    ((∃ name, Event.goClientHandler name ∈ (handshake A B connA connB host solicited).2.events) ↔
      (A.name ∉ B.clients ∧ ¬ (solicited = true ∧ A.degree ≤ len A.clients))) := by
  have hclosed : newConnection A connA (acceptSide [Event.close connB]) =
      (A, [Event.encodeString connA A.name,
        Event.encodeBool connA (decide (len A.clients < A.degree))]) := by
    simp [newConnection, acceptSide, sentString, received]
  have hnamed : newConnection A connA
      (acceptSide [Event.encodeString connB B.name, Event.goClientHandler A.name]) =
      ({ A with clients := A.clients.insert B.name ⟨connA, B.name⟩ },
        [Event.encodeString connA A.name,
          Event.encodeBool connA (decide (len A.clients < A.degree)),
          Event.goClientHandler B.name]) := by
    simp [newConnection, acceptSide, sentString, received]
  have hshake : handshake A B connA connB host solicited =
      (newConnection A connA (acceptSide (dial B (dialSide A connA connB) host solicited).events),
        dial B (dialSide A connA connB) host solicited) := rfl
  rw [hshake]
  rcases handshake_dial_cases A B connA connB host solicited with
    (⟨hdup, hd⟩ | ⟨hnew, hfull, hd⟩) | ⟨hnew, hfree, hd⟩
  · rw [hd, hclosed]
    simp [hdup]
  · rw [hd, hclosed]
    simp [hfull]
  · rw [hd, hnamed]
    have hyes : A.name ∉ B.clients ∧ ¬ (solicited = true ∧ A.degree ≤ len A.clients) :=
      ⟨hnew, hfree⟩
    simp [hyes]

theorem handshake_agreement_witness :
    (handshake nodeB (NewNode "c" 2 9000) 5 6 "b" true).2.node.clients.keys = [] ∧
    (handshake nodeB (NewNode "c" 2 9000) 5 6 "b" true).1.1.clients.keys = ["a"] ∧
    (handshake nodeB (NewNode "c" 2 9000) 5 6 "b" false).2.node.clients.keys = ["b"] ∧
    (handshake nodeB (NewNode "c" 2 9000) 5 6 "b" false).1.1.clients.keys = ["c", "a"] ∧
    (handshake nodeB nodeA 5 6 "b" false).2.node = nodeA :=
  ⟨by decide, by decide, by decide, by decide,
    ((handshake_agreement nodeB nodeA 5 6 "b" false).2.1
      (fun h => h.1 (AList.mem_keys.2 (by decide)))).1⟩

end Meshage

namespace Minimega

open Meshage

/-! ## Lemmas on webVMsJSON -/

theorem lor_eq_zero (a b : Nat) : a ||| b = 0 ↔ a = 0 ∧ b = 0 := by
  constructor
  · intro h
    have hbit : ∀ i, (a.testBit i || b.testBit i) = false := by
      intro i
      rw [← Nat.testBit_lor, h]
      exact Nat.zero_testBit i
    constructor
    · apply Nat.eq_of_testBit_eq
      intro i
      have := hbit i
      simp only [Bool.or_eq_false_iff] at this
      rw [this.1, Nat.zero_testBit]
    · apply Nat.eq_of_testBit_eq
      intro i
      have := hbit i
      simp only [Bool.or_eq_false_iff] at this
      rw [this.2, Nat.zero_testBit]
  · rintro ⟨rfl, rfl⟩
    rfl

/-- A VM is kept exactly when neither the bits of `VM_QUIT` nor those of
`VM_ERROR` are set in its state. -/
theorem skipped_eq_false_iff {Info : Type} (VM_QUIT VM_ERROR : Nat) (vm : VM Info) :
    skipped VM_QUIT VM_ERROR vm = false ↔
      vm.state &&& VM_QUIT = 0 ∧ vm.state &&& VM_ERROR = 0 := by
  unfold skipped
  rw [Nat.and_or_distrib_left, ← lor_eq_zero]
  simp

theorem infovms_mem {Info : Type} (VM_QUIT VM_ERROR : Nat) (vms : List (VM Info)) :
    ∀ (m : GoMap (VM Info)) (k : String),
      k ∈ vms.foldl
          (fun m vm => if skipped VM_QUIT VM_ERROR vm then m else m.insert (vmKey vm) vm) m ↔
        k ∈ m ∨ ∃ vm ∈ vms, skipped VM_QUIT VM_ERROR vm = false ∧ vmKey vm = k := by
  induction vms with
  | nil =>
    intro m k
    simp
  | cons v rest ih =>
    intro m k
    rw [List.foldl_cons, ih]
    by_cases hs : skipped VM_QUIT VM_ERROR v = true
    · simp [hs]
    · have hs2 : skipped VM_QUIT VM_ERROR v = false := by simpa using hs
      simp only [hs2, Bool.false_eq_true, if_false, AList.mem_insert, List.mem_cons,
        exists_eq_or_imp, true_and]
      constructor
      · rintro ((h | h) | h)
        · exact Or.inr (Or.inl h.symm)
        · exact Or.inl h
        · exact Or.inr (Or.inr h)
      · rintro (h | h | h)
        · exact Or.inl (Or.inr h)
        · exact Or.inl (Or.inl h.symm)
        · exact Or.inr h

theorem infovms_lookup {Info : Type} (VM_QUIT VM_ERROR : Nat) (vms : List (VM Info)) :
    ∀ (m : GoMap (VM Info)) (k : String) (x : VM Info),
      (vms.foldl
          (fun m vm => if skipped VM_QUIT VM_ERROR vm then m else m.insert (vmKey vm) vm)
          m).lookup k = some x →
        m.lookup k = some x ∨ (x ∈ vms ∧ skipped VM_QUIT VM_ERROR x = false ∧ vmKey x = k) := by
  induction vms with
  | nil =>
    intro m k x h
    exact Or.inl h
  | cons v rest ih =>
    intro m k x h
    rw [List.foldl_cons] at h
    rcases ih _ k x h with h1 | ⟨h1, h2, h3⟩
    · by_cases hs : skipped VM_QUIT VM_ERROR v = true
      · simp only [hs, if_true] at h1
        exact Or.inl h1
      · have hs2 : skipped VM_QUIT VM_ERROR v = false := by simpa using hs
        simp only [hs2, Bool.false_eq_true, if_false] at h1
        by_cases hk : k = vmKey v
        · subst hk
          rw [AList.lookup_insert] at h1
          obtain rfl := Option.some.inj h1
          exact Or.inr ⟨by simp, hs2, rfl⟩
        · rw [AList.lookup_insert_ne hk] at h1
          exact Or.inl h1
    · exact Or.inr ⟨by simp [h1], h2, h3⟩

/-- Every key of `infovms` holds a kept VM of the input with that key. -/
theorem infovms_entry {Info : Type} (VM_QUIT VM_ERROR : Nat) (vms : List (VM Info)) (k : String)
    (hk : k ∈ infovms VM_QUIT VM_ERROR vms) :
    ∃ x, (infovms VM_QUIT VM_ERROR vms).lookup k = some x ∧ x ∈ vms ∧
      skipped VM_QUIT VM_ERROR x = false ∧ vmKey x = k := by
  have hsome := (AList.lookup_isSome).2 hk
  obtain ⟨x, hx⟩ := Option.isSome_iff_exists.1 hsome
  rcases infovms_lookup VM_QUIT VM_ERROR vms ∅ k x hx with h | h
  · simp at h
  · exact ⟨x, hx, h⟩

theorem infovms_keys {Info : Type} (VM_QUIT VM_ERROR : Nat) (vms : List (VM Info)) (k : String) :
    k ∈ sortStrings (infovms VM_QUIT VM_ERROR vms).keys ↔
      ∃ vm ∈ vms, skipped VM_QUIT VM_ERROR vm = false ∧ vmKey vm = k := by
  rw [(sortStrings_perm _).mem_iff, ← AList.mem_keys]
  unfold infovms
  rw [infovms_mem]
  simp

theorem infovms_keys_perm {Info : Type} (VM_QUIT VM_ERROR : Nat) (vms vms2 : List (VM Info))
    (hperm : vms2.Perm vms) :
    sortStrings (infovms VM_QUIT VM_ERROR vms2).keys =
      sortStrings (infovms VM_QUIT VM_ERROR vms).keys := by
  have hs1 := sortStrings_strict _ (infovms VM_QUIT VM_ERROR vms).keys_nodup
  have hs2 := sortStrings_strict _ (infovms VM_QUIT VM_ERROR vms2).keys_nodup
  have hp : (sortStrings (infovms VM_QUIT VM_ERROR vms2).keys).Perm
      (sortStrings (infovms VM_QUIT VM_ERROR vms).keys) := by
    rw [List.perm_ext_iff_of_nodup hs2.nodup hs1.nodup]
    intro k
    rw [infovms_keys, infovms_keys]
    constructor
    · rintro ⟨vm, h1, h2⟩
      exact ⟨vm, hperm.mem_iff.1 h1, h2⟩
    · rintro ⟨vm, h1, h2⟩
      exact ⟨vm, hperm.mem_iff.2 h1, h2⟩
  exact List.eq_of_perm_of_sorted hp hs2.le_of_lt hs1.le_of_lt

theorem webVMsJSON_keys {Info : Type} (VM_QUIT VM_ERROR : Nat) (vms : List (VM Info)) :
    (webVMsJSON VM_QUIT VM_ERROR vms).map (Option.map vmKey) =
      (sortStrings (infovms VM_QUIT VM_ERROR vms).keys).map some := by
  unfold webVMsJSON
  rw [List.map_map]
  apply List.map_congr_left
  intro k hk
  have hk2 : k ∈ infovms VM_QUIT VM_ERROR vms := by
    rw [AList.mem_keys, ← (sortStrings_perm _).mem_iff]
    exact hk
  obtain ⟨x, hx, -, -, hkey⟩ := infovms_entry VM_QUIT VM_ERROR vms k hk2
  simp [hx, hkey]

/-! ## C11 -/

/-- C11: the list `webVMsJSON` emits has, for a strictly ascending list of
keys, one entry per key and in that order; the keys are exactly the strings
host, blank, decimal ID of the VMs whose state has neither the `VM_QUIT` nor
the `VM_ERROR` bit set, and every entry is such a VM of the input.  The
sequence of keys is the same for every order in which the VMs are visited,
and so is the whole list when no two of those VMs share a key. -/
theorem webVMsJSON_one_entry_per_key_ascending {Info : Type} (VM_QUIT VM_ERROR : Nat)
    (vms : List (VM Info)) :
    (∃ keys : List String,
      (webVMsJSON VM_QUIT VM_ERROR vms).map (Option.map vmKey) = keys.map some ∧
      List.Sorted (fun a b => a < b) keys ∧
      ∀ k, k ∈ keys ↔
        ∃ vm ∈ vms, vm.state &&& VM_QUIT = 0 ∧ vm.state &&& VM_ERROR = 0 ∧
          vm.host ++ " " ++ toString vm.id = k) ∧
    (∀ e ∈ webVMsJSON VM_QUIT VM_ERROR vms,
      ∃ vm ∈ vms, e = some vm ∧ vm.state &&& VM_QUIT = 0 ∧ vm.state &&& VM_ERROR = 0) ∧
    (∀ vms2, vms2.Perm vms →
      (webVMsJSON VM_QUIT VM_ERROR vms2).map (Option.map vmKey) =
        (webVMsJSON VM_QUIT VM_ERROR vms).map (Option.map vmKey)) ∧
    (∀ vms2, vms2.Perm vms →
      ((vms.filter (fun vm => !skipped VM_QUIT VM_ERROR vm)).map vmKey).Nodup →
      webVMsJSON VM_QUIT VM_ERROR vms2 = webVMsJSON VM_QUIT VM_ERROR vms) := by
  refine ⟨⟨sortStrings (infovms VM_QUIT VM_ERROR vms).keys, webVMsJSON_keys _ _ vms,
    sortStrings_strict _ (infovms VM_QUIT VM_ERROR vms).keys_nodup, ?_⟩, ?_, ?_, ?_⟩
  · intro k
    rw [infovms_keys]
    constructor
    · rintro ⟨vm, h1, h2, h3⟩
      exact ⟨vm, h1, ((skipped_eq_false_iff _ _ vm).1 h2).1, ((skipped_eq_false_iff _ _ vm).1 h2).2, h3⟩
    · rintro ⟨vm, h1, h2, h3, h4⟩
      exact ⟨vm, h1, (skipped_eq_false_iff _ _ vm).2 ⟨h2, h3⟩, h4⟩
  · intro e he
    unfold webVMsJSON at he
    obtain ⟨k, hk, rfl⟩ := List.mem_map.1 he
    have hk2 : k ∈ infovms VM_QUIT VM_ERROR vms := by
      rw [AList.mem_keys, ← (sortStrings_perm _).mem_iff]
      exact hk
    obtain ⟨x, hx, hmem, hkept, -⟩ := infovms_entry VM_QUIT VM_ERROR vms k hk2
    exact ⟨x, hmem, hx, (skipped_eq_false_iff _ _ x).1 hkept⟩
  · intro vms2 hperm
    rw [webVMsJSON_keys, webVMsJSON_keys, infovms_keys_perm _ _ vms vms2 hperm]
  · intro vms2 hperm hnodup
    have hkeys := infovms_keys_perm VM_QUIT VM_ERROR vms vms2 hperm
    unfold webVMsJSON
    simp only
    rw [hkeys]
    apply List.map_congr_left
    intro k hk
    have hk1 : k ∈ infovms VM_QUIT VM_ERROR vms := by
      rw [AList.mem_keys, ← (sortStrings_perm _).mem_iff]
      exact hk
    have hk2 : k ∈ infovms VM_QUIT VM_ERROR vms2 := by
      rw [AList.mem_keys, ← (sortStrings_perm _).mem_iff, hkeys]
      exact hk
    obtain ⟨x, hx, hxm, hxk, hxkey⟩ := infovms_entry VM_QUIT VM_ERROR vms k hk1
    obtain ⟨y, hy, hym, hyk, hykey⟩ := infovms_entry VM_QUIT VM_ERROR vms2 k hk2
    have hxf : x ∈ vms.filter (fun vm => !skipped VM_QUIT VM_ERROR vm) := by
      simp [List.mem_filter, hxm, hxk]
    have hyf : y ∈ vms.filter (fun vm => !skipped VM_QUIT VM_ERROR vm) := by
      simp [List.mem_filter, hperm.mem_iff.1 hym, hyk]
    have hxy : y = x := List.inj_on_of_nodup_map hnodup hyf hxf (hykey.trans hxkey.symm)
    rw [hx, hy, hxy]

theorem webVMsJSON_one_entry_per_key_ascending_witness :
    webVMsJSON 8 16 someVMs =
      [some ⟨4, "g", 7, "dns"⟩, some ⟨2, "h", 10, "db"⟩, some ⟨2, "h", 2, "web"⟩] ∧
    webVMsJSON 8 16 someVMs.reverse = webVMsJSON 8 16 someVMs :=
  ⟨by decide,
    (webVMsJSON_one_entry_per_key_ascending 8 16 someVMs).2.2.2 someVMs.reverse
      (List.reverse_perm someVMs) (by decide)⟩

end Minimega
